import Mathlib

/-!
Verification of the EcoLens backend's normalization, candidate-selection and
ranking pipeline (`backend/processing.py`, `backend/recommendation.py`).

Python values flowing through the pipeline are modelled by the JSON-like type
`JVal`; Python dicts are association lists with unique keys, and Python's
insertion-ordered dict semantics (updates keep position, fresh keys append at
the end) are modelled by `dictSet` / `dictDel`.  Numbers are modelled by `Rat`.
String operations are re-implemented character-by-character (ASCII model) so
that they compute by structural recursion.
-/

/-- Model of a Python/JSON value as it appears in an OpenFoodFacts record. -/
inductive JVal where
  | null
  | bool (b : Bool)
  | num (q : Rat)
  | str (s : String)
  | arr (xs : List JVal)
  | obj (fields : List (String × JVal))

/-- Model of a Python dict with string keys (a raw record, or a produced record). -/
abbrev Dict := List (String × JVal)

/-- Python truthiness (`bool(v)`): `None`, `False`, `0`, `""`, `[]`, `{}` are falsy. -/
def JVal.truthy : JVal → Bool
  | .null => false
  | .bool b => b
  | .num q => q != 0
  | .str s => !(s = "")
  | .arr xs => !xs.isEmpty
  | .obj fs => !fs.isEmpty

/-- Truthiness of a `dict.get(k)` result (`None` for a missing key is falsy). -/
def truthyO : Option JVal → Bool
  | none => false
  | some v => v.truthy

def JVal.isObj : JVal → Bool
  | .obj _ => true
  | _ => false

def JVal.isArr : JVal → Bool
  | .arr _ => true
  | _ => false

def JVal.isStr : JVal → Bool
  | .str _ => true
  | _ => false

def JVal.isNum : JVal → Bool
  | .num _ => true
  | _ => false

def JVal.isNull : JVal → Bool
  | .null => true
  | _ => false

/-- Underlying string of a string value (used only where the source requires a `str`). -/
def JVal.asStr : JVal → String
  | .str s => s
  | _ => ""

/-- Underlying list of an array value. -/
def JVal.asList : JVal → List JVal
  | .arr xs => xs
  | _ => []

/-- Numeric coercion `float(v)` for the values the processing code applies it to. -/
def JVal.asRat : JVal → Rat
  | .num q => q
  | .bool b => if b then 1 else 0
  | _ => 0

/-- Python `len(v)` for sized values. -/
def JVal.pyLen : JVal → Nat
  | .arr xs => xs.length
  | .obj fs => fs.length
  | .str s => s.length
  | _ => 0

/-- Python comparison `v != 0`: numbers compare numerically, `False == 0`,
everything else differs from `0`. -/
def JVal.pyNeZero : JVal → Bool
  | .num q => q != 0
  | .bool b => b
  | _ => true

/-- Python `a or b`: the first operand when truthy, otherwise the second. -/
def pyOr (a b : JVal) : JVal := if a.truthy then a else b

/-- Lookup in an association list (Python dict lookup; keys are unique). -/
def aget {α : Type} : List (String × α) → String → Option α
  | [], _ => none
  | (k, v) :: rest, key => if k = key then some v else aget rest key

/-- Python dict assignment `d[key] = v`: update in place, or append a fresh key. -/
def dictSet {α : Type} : List (String × α) → String → α → List (String × α)
  | [], key, v => [(key, v)]
  | (k, w) :: rest, key, v =>
      if k = key then (k, v) :: rest else (k, w) :: dictSet rest key v

/-- Python `del d[key]`: remove the binding of `key` (keys are unique). -/
def dictDel {α : Type} : List (String × α) → String → List (String × α)
  | [], _ => []
  | (k, w) :: rest, key => if k = key then rest else (k, w) :: dictDel rest key

/-- Python `d.get(key)` on a (possibly nested) value; `None`-like `none` when
the value is not a dict or the key is absent. -/
def JVal.get? : JVal → String → Option JVal
  | .obj fs, k => aget fs k
  | _, _ => none

/-- Python `d.get(key, default)` on a nested value. -/
def JVal.getD (v : JVal) (k : String) (d : JVal) : JVal := (v.get? k).getD d

/-- Python `product.get(key, default)` on a top-level record. -/
def dgetD (d : Dict) (k : String) (dv : JVal) : JVal := (aget d k).getD dv

/-- Python `s.replace("en:", "")`: remove every (non-overlapping, left-to-right)
occurrence of `"en:"`. -/
def removeEnTag : List Char → List Char
  | 'e' :: 'n' :: ':' :: rest => removeEnTag rest
  | c :: rest => c :: removeEnTag rest
  | [] => []

/-- String form of `s.replace("en:", "")`. -/
def replaceEn (s : String) : String := ⟨removeEnTag s.data⟩

/-- Python `s.replace("-", "_")`. -/
def dashToUnderscore (s : String) : String :=
  ⟨s.data.map (fun c => if c = '-' then '_' else c)⟩

/-- Python `s.replace("-", " ")` applied to a token's characters. -/
def dashToSpace (t : List Char) : List Char :=
  t.map (fun c => if c = '-' then ' ' else c)

/-- Python `s.upper()` (ASCII model). -/
def pyUpper (s : String) : String := ⟨s.data.map Char.toUpper⟩

/-- Python `s.lower()` (ASCII model). -/
def pyLower (s : String) : String := ⟨s.data.map Char.toLower⟩

/-- Character-level worker for Python `s.title()`: an alphabetic character is
upper-cased after a non-alphabetic character (or at the start) and lower-cased
otherwise. -/
def titleChars : Bool → List Char → List Char
  | _, [] => []
  | prev, c :: cs =>
      (if c.isAlpha then (if prev then c.toLower else c.toUpper) else c)
        :: titleChars c.isAlpha cs

/-- Python `s.title()` on a token's characters. -/
def pyTitle (t : List Char) : String := ⟨titleChars false t⟩

/-- Python `s.strip()` on a token's characters. -/
def stripChars (t : List Char) : List Char :=
  ((t.dropWhile Char.isWhitespace).reverse.dropWhile Char.isWhitespace).reverse

/-- Python `s.split(",")`: e.g. `"" ↦ [""]`, `"a,,b" ↦ ["a", "", "b"]`. -/
def splitComma : List Char → List (List Char)
  | [] => [[]]
  | ',' :: rest => [] :: splitComma rest
  | c :: rest =>
      match splitComma rest with
      | t :: ts => (c :: t) :: ts
      | [] => [[c]]

/-- Python `s.startswith("en:")` on a token's characters. -/
def startsEn : List Char → Bool
  | 'e' :: 'n' :: ':' :: _ => true
  | _ => false

/-!
Embedding of `backend/processing.py`.
-/

/-- Material key derivation (`processing.py:153`):
`material.replace("en:", "").replace("-", "_").upper()`. -/
def materialKey (m : String) : String := pyUpper (dashToUnderscore (replaceEn m))

/-- Six-field record stored per material key (`processing.py:155-166`). -/
def materialEntry (pk : JVal) : JVal :=
  let material := pk.getD "material" (.str "")
  let shape := pk.getD "shape" (.str "")
  .obj [("material", material),
        ("packaging_id", material),
        ("environmental_score_material_score",
          pk.getD "environmental_score_material_score" (.num 0)),
        ("environmental_score_shape_ratio",
          pk.getD "environmental_score_shape_ratio" (.num 0)),
        ("shape", if shape.truthy then shape else .str ""),
        ("shape_id", if shape.truthy then .str (replaceEn shape.asStr) else .str "")]

/-- Loop body of `transform_material_scores` for one packaging item. -/
def materialStep (ms : Dict) (pk : JVal) : Dict :=
  let material := pk.getD "material" (.str "")
  if material.truthy then dictSet ms (materialKey material.asStr) (materialEntry pk)
  else ms

/-- Embedding of `transform_material_scores` (`processing.py:129-170`). -/
def transform_material_scores (ecoscore_data : JVal) : Dict :=
  let packaging_data := (ecoscore_data.getD "adjustments" (.obj [])).getD "packaging" (.obj [])
  let packagings := packaging_data.getD "packagings" (.arr [])
  packagings.asList.foldl materialStep []

/-- Embedding of `transform_environmental_data` (`processing.py:57-126`). -/
def transform_environmental_data (product : Dict) : Dict :=
  let ecoscore_data := dgetD product "ecoscore_data" (.obj [])
  if !ecoscore_data.truthy then
    [("adjusted_score", .num 0), ("overall_grade", .str ""), ("packaging_score", .num 0)]
  else
    let adjusted_score := ecoscore_data.getD "score" (.num 0)
    let overall_grade := ecoscore_data.getD "grade" (.str "")
    let packaging_score :=
      ((ecoscore_data.getD "adjustments" (.obj [])).getD "packaging" (.obj [])).getD "score" (.num 0)
    let environmental_data : Dict :=
      [("adjusted_score", adjusted_score), ("overall_grade", overall_grade),
       ("packaging_score", packaging_score)]
    let material_scores := transform_material_scores ecoscore_data
    let environmental_data :=
      if !material_scores.isEmpty then
        dictSet environmental_data "material_scores" (.obj material_scores)
      else environmental_data
    let agribalyse_data := ecoscore_data.getD "agribalyse" (.obj [])
    if agribalyse_data.truthy then
      let warning := agribalyse_data.getD "warning" .null
      let co2_total := agribalyse_data.getD "co2_total" .null
      let has_co2_data := !co2_total.isNull && co2_total.pyNeZero
      if has_co2_data || !warning.truthy then
        dictSet environmental_data "agribalyse"
          (.obj [("co2_total", agribalyse_data.getD "co2_total" (.num 0)),
                 ("co2_agriculture", agribalyse_data.getD "co2_agriculture" (.num 0)),
                 ("co2_consumption", agribalyse_data.getD "co2_consumption" (.num 0)),
                 ("co2_distribution", agribalyse_data.getD "co2_distribution" (.num 0)),
                 ("co2_packaging", agribalyse_data.getD "co2_packaging" (.num 0)),
                 ("co2_processing", agribalyse_data.getD "co2_processing" (.num 0)),
                 ("co2_transportation", agribalyse_data.getD "co2_transportation" (.num 0))])
      else environmental_data
    else environmental_data

/-- One iteration of the `transform_labels` loop (`processing.py:187-192`). -/
def labelStep (labels : List String) (label : List Char) : List String :=
  let cleaned_label := stripChars label
  if !cleaned_label.isEmpty && startsEn cleaned_label then
    labels ++ [pyTitle (dashToSpace (cleaned_label.drop 3))]
  else if !cleaned_label.isEmpty then
    labels ++ [pyTitle (dashToSpace cleaned_label)]
  else labels

/-- Embedding of `transform_labels` (`processing.py:173-194`); the argument is
the raw `labels` field, whose type the source checks with `isinstance`. -/
def transform_labels (labels_str : JVal) : List String :=
  match labels_str with
  | .str s => if !(JVal.str s).truthy then [] else (splitComma s.data).foldl labelStep []
  | _ => []

/-- Embedding of `transform_categories_hierarchy` (`processing.py:197-216`). -/
def transform_categories_hierarchy (categories_hierarchy : JVal) : List String :=
  if !categories_hierarchy.truthy then []
  else
    categories_hierarchy.asList.foldl
      (fun acc category =>
        match category with
        | .str s => if startsEn s.data then acc ++ [pyTitle (dashToSpace (s.data.drop 3))] else acc
        | _ => acc) []

/-- The id fallback chain of `transform_single_product` (`processing.py:21`). -/
def resolvedId (product : Dict) : JVal :=
  pyOr (dgetD product "code" .null) (dgetD product "_id" .null)

/-- The name fallback chain of `transform_single_product` (`processing.py:22`). -/
def resolvedName (product : Dict) : JVal :=
  pyOr (dgetD product "product_name" .null) (dgetD product "product_name_en" (.str ""))

/-- Embedding of `transform_single_product` (`processing.py:11-54`). -/
def transform_single_product (product : Dict) : Option Dict :=
  let product_id := resolvedId product
  let product_name := resolvedName product
  if !product_id.truthy || !product_name.truthy then none
  else
    let environmental_score_data := transform_environmental_data product
    let categories := transform_categories_hierarchy (dgetD product "categories_hierarchy" (.arr []))
    let labels := transform_labels (dgetD product "labels" (.str ""))
    some [("id", product_id),
          ("name", product_name),
          ("environmental_score_data", .obj environmental_score_data),
          ("categories", .arr (categories.map .str)),
          ("labels", .arr (labels.map .str))]

/-- Embedding of `calculate_product_quality_score` (`processing.py:265-300`). -/
def calculate_product_quality_score (product : Dict) : Rat :=
  let score : Rat := 0
  let ecoscore_data := dgetD product "ecoscore_data" (.obj [])
  let ecoscore := ecoscore_data.getD "score" (.num 0)
  let score := if ecoscore.truthy then score + ecoscore.asRat * (6 / 10) else score
  let score := if (dgetD product "product_name" .null).truthy then score + 10 else score
  let categories := dgetD product "categories_hierarchy" (.arr [])
  let score := if categories.truthy then score + min ((categories.pyLen : Rat) * 2) 10 else score
  let agribalyse := ecoscore_data.getD "agribalyse" (.obj [])
  let score :=
    if agribalyse.truthy && !((agribalyse.getD "co2_total" .null).isNull) then score + 5 else score
  let packaging := (ecoscore_data.getD "adjustments" (.obj [])).getD "packaging" (.obj [])
  let score := if (packaging.getD "packagings" .null).truthy then score + 5 else score
  let score :=
    if !(dgetD product "code" .null).truthy && !(dgetD product "_id" .null).truthy then score - 20
    else score
  max score 0

/-- Filtering loop of `select_best_product` (`processing.py:235-250`): skip
records without a truthy `ecoscore_data`, keep positively-scored records with
the score recorded under `"_quality_score"`. -/
def validLoop : List Dict → List Dict
  | [] => []
  | product :: rest =>
      if !truthyO (aget product "ecoscore_data") then validLoop rest
      else
        let quality_score := calculate_product_quality_score product
        if 0 < quality_score then
          dictSet product "_quality_score" (.num quality_score) :: validLoop rest
        else validLoop rest

/-- Score stored under `"_quality_score"` (`p["_quality_score"]`). -/
def storedScore (d : Dict) : Rat :=
  match aget d "_quality_score" with
  | some (.num q) => q
  | _ => 0

/-- Python `max(valid_products, key=...)` on a nonempty list: fold keeping the
current best, replacing it only on a strictly greater key (so the first
maximum encountered wins). -/
def pymaxBy (f : Dict → Rat) : List Dict → Option Dict
  | [] => none
  | x :: xs => some (xs.foldl (fun best p => if f best < f p then p else best) x)

/-- Embedding of `select_best_product` (`processing.py:219-262`). -/
def select_best_product (products : List Dict) : Option Dict :=
  if products.isEmpty then none
  else
    let valid_products := validLoop products
    if valid_products.isEmpty then none
    else
      match pymaxBy storedScore valid_products with
      | none => none
      | some best_product => some (dictDel best_product "_quality_score")

/-!
Embedding of `backend/recommendation.py`.

The HTTP fetch itself is an external collaborator; `fetch_valid_products`
embeds the mapping loop of `fetch_products_by_category` over the raw products
of a decoded response, and `aggregate_and_rank_products` is parameterized by a
function returning the already-mapped per-category candidate lists.  Python's
`float(...)` on strings is abstracted by a parameter `pf` giving for each
string its parsed value, or `none` when `float` raises.
-/

/-- Candidate record appended by `fetch_products_by_category`
(`recommendation.py:99-116`). -/
structure Candidate where
  id : JVal
  product_name : String
  ecoscore_score : Rat
  ecoscore_grade : String

/-- Python `float(v)` under a string-parsing oracle `pf`; `none` models a
raised `ValueError`/`TypeError`. -/
def pyFloat (pf : String → Option Rat) : JVal → Option Rat
  | .num q => some q
  | .bool b => some (if b then 1 else 0)
  | .str s => pf s
  | _ => none

/-- Grade table lookup `{"a": 80, "b": 65, "c": 50, "d": 35, "e": 20}.get g`
(`recommendation.py:92`). -/
def grade_scores (g : String) : Option Rat :=
  if g = "a" then some 80
  else if g = "b" then some 65
  else if g = "c" then some 50
  else if g = "d" then some 35
  else if g = "e" then some 20
  else none

/-- Eco-score fallback chain (`recommendation.py:71-73`). -/
def ecoChain (product : Dict) : JVal :=
  pyOr (dgetD product "ecoscore_score" .null)
    ((dgetD product "ecoscore_data" (.obj [])).getD "score" .null)

/-- Name fallback chain (`recommendation.py:74-79`). -/
def nameChain (product : Dict) : JVal :=
  pyOr (pyOr (pyOr (dgetD product "product_name" .null) (dgetD product "product_name_en" .null))
      (dgetD product "generic_name" .null))
    (dgetD product "generic_name_en" .null)

/-- Grade fallback chain (`recommendation.py:80-82`). -/
def gradeChain (product : Dict) : JVal :=
  pyOr (dgetD product "ecoscore_grade" .null)
    ((dgetD product "ecoscore_data" (.obj [])).getD "grade" .null)

/-- Loop body of `fetch_products_by_category` for one raw product
(`recommendation.py:69-116`): `k` is the current length of `valid_products`
(used for the fallback id `"rec_<k>"`); `none` when the product has no truthy
name and is skipped. -/
def processOne (pf : String → Option Rat) (product : Dict) (k : Nat) : Option Candidate :=
  let ecoscore := ecoChain product
  let name := nameChain product
  let ecoscore_grade := gradeChain product
  if name.truthy then
    let default_score : Rat :=
      if ecoscore_grade.truthy then (grade_scores (pyLower ecoscore_grade.asStr)).getD 50 else 50
    let ecoscore_float : Rat :=
      if ecoscore.isNull then default_score
      else
        match pyFloat pf ecoscore with
        | some q => q
        | none => default_score
    some { id := dgetD product "_id" (.str ("rec_" ++ toString k)),
           product_name := name.asStr,
           ecoscore_score := ecoscore_float,
           ecoscore_grade := if ecoscore_grade.truthy then ecoscore_grade.asStr else "c" }
  else none

/-- The `valid_products` accumulation loop of `fetch_products_by_category`. -/
def fetch_valid_products (pf : String → Option Rat) : List Dict → List Candidate → List Candidate
  | [], acc => acc
  | product :: rest, acc =>
      match processOne pf product acc.length with
      | some c => fetch_valid_products pf rest (acc ++ [c])
      | none => fetch_valid_products pf rest acc

/-- Dedup step of `aggregate_and_rank_products` (`recommendation.py:156-165`):
`unique_products[name] = product` when the name is new or the score strictly
improves. -/
def dedupStep (m : List (String × Candidate)) (product : Candidate) : List (String × Candidate) :=
  match aget m product.product_name with
  | none => m ++ [(product.product_name, product)]
  | some q =>
      if q.ecoscore_score < product.ecoscore_score then dictSet m product.product_name product
      else m

/-- Descending-score ordering used by `sorted(..., key=..., reverse=True)`. -/
def scoreGE (a b : Candidate) : Prop := b.ecoscore_score ≤ a.ecoscore_score

instance : DecidableRel scoreGE := fun a b =>
  inferInstanceAs (Decidable (b.ecoscore_score ≤ a.ecoscore_score))

instance : IsTotal Candidate scoreGE :=
  ⟨fun a b => le_total b.ecoscore_score a.ecoscore_score⟩

instance : IsTrans Candidate scoreGE :=
  ⟨fun _ _ _ h1 h2 => le_trans h2 h1⟩

/-- Embedding of `aggregate_and_rank_products` (`recommendation.py:131-174`),
parameterized by the per-category fetch; Python's stable `sorted` is modelled
by the stable `List.insertionSort`. -/
def aggregate_and_rank_products (fetch : String → List Candidate) (categories : List String)
    (top_n : Nat := 3) : List Candidate :=
  let all_products := categories.foldl (fun acc category => acc ++ fetch category) []
  if all_products.isEmpty then []
  else
    let unique_products := all_products.foldl dedupStep []
    ((unique_products.map Prod.snd).insertionSort scoreGE).take top_n

/-!
Well-formedness of raw records.

The Python code calls `.get` on nested substructures, iterates the packaging
list, applies `float` to a truthy eco-score and `.lower()` to a truthy grade;
on records violating the shapes below it raises instead of returning. The
claims are settled on the non-raising domain.
-/

/-- Value of a present key must be a dict (its `.get` is called). -/
def presObj : Option JVal → Bool
  | none => true
  | some v => v.isObj

/-- Value of a present key must be a list (it is iterated / length-tested). -/
def presArr : Option JVal → Bool
  | none => true
  | some v => v.isArr

/-- A truthy value at this position must be a string. -/
def strOrFalsy (v : JVal) : Bool := !v.truthy || v.isStr

/-- A truthy value at this position must be a number. -/
def numOrFalsy (v : JVal) : Bool := !v.truthy || v.isNum

/-- A truthy value at this position must be a list. -/
def arrOrFalsy (v : JVal) : Bool := !v.truthy || v.isArr

/-- A truthy value at this position must be a dict. -/
def objOrFalsy (v : JVal) : Bool := !v.truthy || v.isObj

/-- Shape constraints on one packaging item (`transform_material_scores`). -/
def wfPackagingItem (pk : JVal) : Bool :=
  pk.isObj && strOrFalsy (pk.getD "material" (.str "")) && strOrFalsy (pk.getD "shape" (.str ""))

/-- Shape constraints on an `ecoscore_data` value for `processing.py`. -/
def wfEcoscoreData (ed : JVal) : Bool :=
  presObj (ed.get? "adjustments") &&
  (let adjustments := ed.getD "adjustments" (.obj [])
   presObj (adjustments.get? "packaging") &&
   (let packaging := adjustments.getD "packaging" (.obj [])
    presArr (packaging.get? "packagings") &&
    (packaging.getD "packagings" (.arr [])).asList.all wfPackagingItem)) &&
  objOrFalsy (ed.getD "agribalyse" (.obj [])) &&
  numOrFalsy (ed.getD "score" (.num 0))

/-- Shape constraints on a raw record for the `processing.py` pipeline. -/
def wfRecord (product : Dict) : Bool :=
  presObj (aget product "ecoscore_data") &&
  wfEcoscoreData (dgetD product "ecoscore_data" (.obj [])) &&
  arrOrFalsy (dgetD product "categories_hierarchy" (.arr []))

/-- Shape constraints on a raw product for the `fetch_products_by_category`
loop (`recommendation.py`). -/
def wfFetchRecord (product : Dict) : Bool :=
  presObj (aget product "ecoscore_data") &&
  strOrFalsy (nameChain product) &&
  strOrFalsy (gradeChain product)

/-!
Specification-side definitions: the claims' vocabulary, written from the
spec's words, to be compared with the embedded code.
-/

/-- The agribalyse substructure of a record, as read by
`transform_environmental_data` (`processing.py:96`). -/
def agribalyseOf (product : Dict) : JVal :=
  (dgetD product "ecoscore_data" (.obj [])).getD "agribalyse" (.obj [])

/-- Spec wording (C1): the `co2_total` field is present (non-`None`) and
non-zero. -/
def co2TotalPresentNonzero (product : Dict) : Bool :=
  let co2_total := (agribalyseOf product).getD "co2_total" .null
  !co2_total.isNull && co2_total.pyNeZero

/-- Spec wording (C1): a data-quality warning flag is set on the agribalyse
substructure. -/
def warningFlagSet (product : Dict) : Bool :=
  ((agribalyseOf product).getD "warning" .null).truthy

/-- Spec wording (C1): the lifecycle CO2 block is included in the output of
the environmental-score transformation. -/
def includesLifecycleCO2 (product : Dict) : Bool :=
  (aget (transform_environmental_data product) "agribalyse").isSome

/-- Spec wording (C3): a candidate is considered when its eco-score
substructure resolves truthily and its quality score is strictly positive. -/
def keepCandidate (product : Dict) : Bool :=
  truthyO (aget product "ecoscore_data") && decide (0 < calculate_product_quality_score product)

/-- Spec wording (C3): the candidates surviving filtering, in input order. -/
def survivors (products : List Dict) : List Dict := products.filter keepCandidate

/-- Spec wording (C3): the maximum by score with ties broken by input order
(the first maximum encountered wins); `none` on an empty list. -/
def firstMaxBy (f : Dict → Rat) : List Dict → Option Dict
  | [] => none
  | p :: ps =>
      match firstMaxBy f ps with
      | none => some p
      | some q => if f p < f q then some q else some p

/-- Spec wording (C4): `ecoscore * 0.6` when an eco-score number is present,
else 0. -/
def ecoTerm (ed : JVal) : Rat :=
  match ed.get? "score" with
  | some (.num q) => q * (6 / 10)
  | _ => 0

/-- Spec wording (C4, amended): the quality score as a clamped sum of six
independent additive terms, the identifier penalty firing when neither `code`
nor `_id` resolves to a truthy value. -/
def specQualityScore (product : Dict) : Rat :=
  let ed := dgetD product "ecoscore_data" (.obj [])
  let t1 : Rat := ecoTerm ed
  let t2 : Rat := if (dgetD product "product_name" .null).truthy then 10 else 0
  let t3 : Rat := min (((dgetD product "categories_hierarchy" (.arr [])).pyLen : Rat) * 2) 10
  let t4 : Rat := if !((ed.getD "agribalyse" (.obj [])).getD "co2_total" .null).isNull then 5 else 0
  let t5 : Rat :=
    if !(((ed.getD "adjustments" (.obj [])).getD "packaging" (.obj [])).getD
          "packagings" (.arr [])).asList.isEmpty then 5 else 0
  let t6 : Rat :=
    if !(dgetD product "code" .null).truthy && !(dgetD product "_id" .null).truthy then -20 else 0
  max (t1 + t2 + t3 + t4 + t5 + t6) 0

/-- Claim wording (C4, as stated): the identifier penalty fires only when
neither the `code` key nor the `_id` key is present in the record. -/
def claimedQualityScore (product : Dict) : Rat :=
  let ed := dgetD product "ecoscore_data" (.obj [])
  let t1 : Rat := ecoTerm ed
  let t2 : Rat := if (dgetD product "product_name" .null).truthy then 10 else 0
  let t3 : Rat := min (((dgetD product "categories_hierarchy" (.arr [])).pyLen : Rat) * 2) 10
  let t4 : Rat := if !((ed.getD "agribalyse" (.obj [])).getD "co2_total" .null).isNull then 5 else 0
  let t5 : Rat :=
    if !(((ed.getD "adjustments" (.obj [])).getD "packaging" (.obj [])).getD
          "packagings" (.arr [])).asList.isEmpty then 5 else 0
  let t6 : Rat := if (aget product "code").isNone && (aget product "_id").isNone then -20 else 0
  max (t1 + t2 + t3 + t4 + t5 + t6) 0

/-- All candidates fetched across the requested categories, in arrival order. -/
def allFetched (fetch : String → List Candidate) (categories : List String) : List Candidate :=
  (categories.map fetch).flatten

/-- Spec wording (C7): the grade-derived default score, with `"c"`-like 50 as
the absolute fallback. -/
def gradeDefaultScore (product : Dict) : Rat :=
  if (gradeChain product).truthy then (grade_scores (pyLower (gradeChain product).asStr)).getD 50
  else 50

/-- Spec wording (C7, amended): the mapped score — the parsed eco-score when
the fallback chain resolves to a non-`None` value that `float` accepts,
otherwise the grade-derived default. -/
def amendedFetchScore (pf : String → Option Rat) (product : Dict) : Rat :=
  if (ecoChain product).isNull then gradeDefaultScore product
  else (pyFloat pf (ecoChain product)).getD (gradeDefaultScore product)

/-- Claim wording (C7, as stated): the score is the numeric eco-score whenever
one is present and parseable, otherwise the grade-derived default. -/
def claimedFetchScore (pf : String → Option Rat) (product : Dict) : Rat :=
  let e :=
    if (dgetD product "ecoscore_score" .null).isNull then
      (dgetD product "ecoscore_data" (.obj [])).getD "score" .null
    else dgetD product "ecoscore_score" .null
  match pyFloat pf e with
  | some q => q
  | none => gradeDefaultScore product

/-- Claim wording (C8): strip the language tag only when it is a leading
occurrence of the token. -/
def stripEnStart (s : String) : String := if startsEn s.data then ⟨s.data.drop 3⟩ else s

/-- Claim wording (C8, as stated): the material key with a prefix-strip
instead of the code's global replacement. -/
def claimedMaterialKey (m : String) : String := pyUpper (dashToUnderscore (stripEnStart m))

/-- Claim wording (C9): strip a language tag — two letters and a colon — from
the front of a token when one is present. -/
def stripLangTag : List Char → List Char
  | c1 :: c2 :: ':' :: rest =>
      if c1.isLower && c2.isLower then rest else c1 :: c2 :: ':' :: rest
  | t => t

/-- Claim wording (C9, as stated): per-token label cleaning that strips any
language prefix. -/
def claimedLabelClean (t : List Char) : String := pyTitle (dashToSpace (stripLangTag t))

/-- Spec wording (C9, amended): per-token cleaning stripping only the `"en:"`
prefix. -/
def labelClean (t : List Char) : String :=
  pyTitle (dashToSpace (if startsEn t then t.drop 3 else t))

/-- Spec wording (C9): split on commas, trim each token, drop empty tokens,
clean each survivor, preserving order. -/
def specLabels (s : String) : List String :=
  (((splitComma s.data).map stripChars).filter (fun t => !t.isEmpty)).map labelClean

/-!
Concrete records used as counterexamples and witnesses.
-/

/-- Record whose eco-score substructure is read but carries no agribalyse
block and no warning flag. -/
def c1rec : Dict := [("ecoscore_data", .obj [("score", .num 5)])]

/-- Record with a present agribalyse block, zero total and no warning. -/
def c1wit : Dict := [("ecoscore_data", .obj [("agribalyse", .obj [("co2_total", .num 0)])])]

/-- Record missing `code`, `_id` and both name fields. -/
def c2wit : Dict := []

def c3p1 : Dict :=
  [("code", .str "1"), ("product_name", .str "A"), ("ecoscore_data", .obj [("score", .num 50)])]

def c3p2 : Dict :=
  [("code", .str "2"), ("product_name", .str "B"), ("ecoscore_data", .obj [("score", .num 50)])]

def c3ps : List Dict := [c3p1, c3p2]

/-- Record whose `code` key is present but empty. -/
def c4rec : Dict := [("code", .str ""), ("product_name", .str "A")]

def c4wit : Dict := [("code", .str "x"), ("product_name", .str "A")]

def candA : Candidate := ⟨.str "idA", "A", 50, "c"⟩

def candB : Candidate := ⟨.str "idB", "B", 50, "c"⟩

def candC : Candidate := ⟨.str "idC", "C", 60, "c"⟩

/-- Fetch returning candidate A for the first category and B for the second. -/
def fetchAB : String → List Candidate :=
  fun category => if category = "cat1" then [candA] else if category = "cat2" then [candB] else []

/-- Fetch delivering the same two candidates in the opposite arrival order. -/
def fetchBA : String → List Candidate :=
  fun category => if category = "cat1" then [candB] else if category = "cat2" then [candA] else []

/-- Fetch returning candidates with pairwise distinct scores. -/
def fetchAC : String → List Candidate :=
  fun category => if category = "cat1" then [candA] else if category = "cat2" then [candC] else []

/-- The distinct-score candidates arriving in the opposite order. -/
def fetchCA : String → List Candidate :=
  fun category => if category = "cat1" then [candC] else if category = "cat2" then [candA] else []

/-- Raw product with a present-but-zero `ecoscore_score` and grade `"a"`. -/
def c7rec : Dict :=
  [("product_name", .str "X"), ("ecoscore_score", .num 0), ("ecoscore_grade", .str "a")]

def c7wit : Dict := [("product_name", .str "Y"), ("ecoscore_score", .num 42)]

/-- String-parsing oracle on which `float` always raises. -/
def pfNone : String → Option Rat := fun _ => none

/-- Packaging item whose material id contains `"en:"` away from the front. -/
def c8pk : JVal := .obj [("material", .str "x-en:y")]

def c8ed : JVal :=
  .obj [("adjustments", .obj [("packaging", .obj [("packagings", .arr [c8pk])])])]

/-!
Association-list lemmas.
-/

theorem aget_dictSet_self {α : Type} (m : List (String × α)) (k : String) (v : α) :
    aget (dictSet m k v) k = some v := by
  induction m with
  | nil => simp [dictSet, aget]
  | cons e rest ih =>
      obtain ⟨k', w⟩ := e
      by_cases h : k' = k <;> simp [dictSet, aget, h, ih]

theorem aget_dictSet_ne {α : Type} (m : List (String × α)) (k k' : String) (v : α)
    (h : k ≠ k') : aget (dictSet m k v) k' = aget m k' := by
  induction m with
  | nil => simp [dictSet, aget, h]
  | cons e rest ih =>
      obtain ⟨k'', w⟩ := e
      by_cases h2 : k'' = k
      · subst h2; simp [dictSet, aget, h]
      · simp [dictSet, aget, h2, ih]

theorem aget_append {α : Type} (m₁ m₂ : List (String × α)) (k : String) :
    aget (m₁ ++ m₂) k = ((aget m₁ k).map some).getD (aget m₂ k) := by
  induction m₁ with
  | nil => simp [aget]
  | cons e rest ih =>
      obtain ⟨k', w⟩ := e
      by_cases h : k' = k <;> simp [aget, h, ih]

theorem aget_eq_none_iff {α : Type} (m : List (String × α)) (k : String) :
    aget m k = none ↔ k ∉ m.map Prod.fst := by
  induction m with
  | nil => simp [aget]
  | cons e rest ih =>
      obtain ⟨k', w⟩ := e
      by_cases h : k' = k
      · subst h; simp [aget]
      · have h' : ¬k = k' := fun h2 => h h2.symm
        simp [aget, h, h', ih]

theorem aget_isSome_iff {α : Type} (m : List (String × α)) (k : String) :
    (aget m k).isSome ↔ k ∈ m.map Prod.fst := by
  rw [← Option.ne_none_iff_isSome, ne_eq, aget_eq_none_iff, not_not]

theorem aget_mem {α : Type} {m : List (String × α)} {k : String} {v : α}
    (h : aget m k = some v) : (k, v) ∈ m := by
  induction m with
  | nil => simp [aget] at h
  | cons e rest ih =>
      obtain ⟨k', w⟩ := e
      by_cases h2 : k' = k
      · subst h2; simp [aget] at h; simp [h]
      · simp [aget, h2] at h
        exact List.mem_cons_of_mem _ (ih h)

theorem mem_aget {α : Type} {m : List (String × α)} (hnd : (m.map Prod.fst).Nodup)
    {k : String} {v : α} (h : (k, v) ∈ m) : aget m k = some v := by
  induction m with
  | nil => simp at h
  | cons e rest ih =>
      obtain ⟨k', w⟩ := e
      rw [List.map_cons, List.nodup_cons] at hnd
      rcases List.mem_cons.mp h with h1 | h1
      · obtain ⟨hk, hv⟩ := Prod.mk.injEq .. ▸ h1
        subst hk; subst hv
        simp [aget]
      · have hk : ¬k' = k := by
          intro h2
          subst h2
          exact hnd.1 (show k' ∈ List.map Prod.fst rest from List.mem_map_of_mem Prod.fst h1)
        simp [aget, hk]
        exact ih hnd.2 h1

theorem mem_dictSet {α : Type} {m : List (String × α)} {k : String} {v : α} {e : String × α}
    (h : e ∈ dictSet m k v) : e ∈ m ∨ e = (k, v) := by
  induction m with
  | nil => simp [dictSet] at h; simp [h]
  | cons e' rest ih =>
      obtain ⟨k', w⟩ := e'
      by_cases h2 : k' = k
      · subst h2
        simp [dictSet] at h
        rcases h with h | h
        · right; simp [h]
        · left; simp [h]
      · simp [dictSet, h2] at h
        rcases h with h | h
        · left; simp [h]
        · rcases ih h with h3 | h3
          · left; simp [h3]
          · right; exact h3

theorem keys_dictSet_mem {α : Type} (m : List (String × α)) (k : String) (v : α)
    (h : k ∈ m.map Prod.fst) : (dictSet m k v).map Prod.fst = m.map Prod.fst := by
  induction m with
  | nil => simp at h
  | cons e rest ih =>
      obtain ⟨k', w⟩ := e
      by_cases h2 : k' = k
      · subst h2; simp [dictSet]
      · rw [List.map_cons] at h
        rcases List.mem_cons.mp h with h3 | h3
        · exact absurd h3.symm h2
        · simp [dictSet, h2, ih h3]

theorem keys_dictSet_fresh {α : Type} (m : List (String × α)) (k : String) (v : α)
    (h : k ∉ m.map Prod.fst) : (dictSet m k v).map Prod.fst = m.map Prod.fst ++ [k] := by
  induction m with
  | nil => simp [dictSet]
  | cons e rest ih =>
      obtain ⟨k', w⟩ := e
      rw [List.map_cons] at h
      have h1 : ¬k = k' := fun hh => h (hh ▸ List.mem_cons_self k' (rest.map Prod.fst))
      have h2 : k ∉ List.map Prod.fst rest := fun hh => h (List.mem_cons_of_mem _ hh)
      have h3 : ¬k' = k := fun hh => h1 hh.symm
      simp [dictSet, h3, ih h2]

theorem dictDel_dictSet {α : Type} (m : List (String × α)) (k : String) (v : α)
    (h : aget m k = none) : dictDel (dictSet m k v) k = m := by
  induction m with
  | nil => simp [dictSet, dictDel]
  | cons e rest ih =>
      obtain ⟨k', w⟩ := e
      by_cases h2 : k' = k
      · simp [aget, h2] at h
      · simp [aget, h2] at h
        simp [dictSet, dictDel, h2, ih h]

/-!
Selection lemmas (`select_best_product`).
-/

theorem validLoop_eq (ps : List Dict) :
    validLoop ps = (survivors ps).map
      (fun p => dictSet p "_quality_score" (.num (calculate_product_quality_score p))) := by
  induction ps with
  | nil => rfl
  | cons p rest ih =>
      by_cases h1 : truthyO (aget p "ecoscore_data")
      · by_cases h2 : (0 : Rat) < calculate_product_quality_score p
        · simp [validLoop, survivors, keepCandidate, List.filter_cons, h1, h2, ih]
        · simp [validLoop, survivors, keepCandidate, List.filter_cons, h1, h2, ih]
      · simp [validLoop, survivors, keepCandidate, List.filter_cons, h1, ih]

theorem storedScore_dictSet (p : Dict) (q : Rat) :
    storedScore (dictSet p "_quality_score" (.num q)) = q := by
  simp [storedScore, aget_dictSet_self]

theorem foldl_max_map (f h : Dict → Rat) (g : Dict → Dict)
    (hfg : ∀ p, f (g p) = h p) (xs : List Dict) (x : Dict) :
    (xs.map g).foldl (fun best p => if f best < f p then p else best) (g x)
      = g (xs.foldl (fun best p => if h best < h p then p else best) x) := by
  induction xs generalizing x with
  | nil => rfl
  | cons p ps ih =>
      simp only [List.map_cons, List.foldl_cons, hfg]
      by_cases h2 : h x < h p <;> simp [h2, ih]

theorem pymaxBy_map (f h : Dict → Rat) (g : Dict → Dict)
    (hfg : ∀ p, f (g p) = h p) (l : List Dict) :
    pymaxBy f (l.map g) = (pymaxBy h l).map g := by
  cases l with
  | nil => rfl
  | cons x xs => simp [pymaxBy, foldl_max_map f h g hfg]

theorem firstMaxBy_shift (h : Dict → Rat) (x p : Dict) (ps : List Dict) :
    firstMaxBy h (x :: p :: ps) = firstMaxBy h ((if h x < h p then p else x) :: ps) := by
  by_cases hxp : h x < h p
  · cases hr : firstMaxBy h ps with
    | none => simp [firstMaxBy, hr, hxp]
    | some r =>
        by_cases hpr : h p < h r
        · have hxr : h x < h r := lt_trans hxp hpr
          simp [firstMaxBy, hr, hxp, hpr, hxr]
        · simp [firstMaxBy, hr, hxp, hpr]
  · cases hr : firstMaxBy h ps with
    | none => simp [firstMaxBy, hr, hxp]
    | some r =>
        by_cases hpr : h p < h r
        · simp [firstMaxBy, hr, hxp, hpr]
        · have hrx : ¬h x < h r := fun hc => hxp (lt_of_lt_of_le hc (not_lt.mp hpr))
          simp [firstMaxBy, hr, hxp, hpr, hrx]

theorem pymaxBy_eq_firstMaxBy (h : Dict → Rat) (l : List Dict) :
    pymaxBy h l = firstMaxBy h l := by
  cases l with
  | nil => rfl
  | cons x xs =>
      induction xs generalizing x with
      | nil => simp [pymaxBy, firstMaxBy]
      | cons p ps ih =>
          rw [firstMaxBy_shift]
          rw [← ih (if h x < h p then p else x)]
          simp [pymaxBy]

theorem firstMaxBy_mem {h : Dict → Rat} {l : List Dict} :
    ∀ {b : Dict}, firstMaxBy h l = some b → b ∈ l := by
  induction l with
  | nil => intro b hb; simp [firstMaxBy] at hb
  | cons p ps ih =>
      intro b hb
      cases hr : firstMaxBy h ps with
      | none => simp [firstMaxBy, hr] at hb; simp [hb]
      | some r =>
          simp only [firstMaxBy, hr] at hb
          by_cases hc : h p < h r
          · rw [if_pos hc] at hb
            obtain rfl : r = b := Option.some.inj hb
            exact List.mem_cons_of_mem _ (ih hr)
          · rw [if_neg hc] at hb
            obtain rfl : p = b := Option.some.inj hb
            exact List.mem_cons_self _ _

theorem firstMaxBy_eq_none_iff (h : Dict → Rat) (l : List Dict) :
    firstMaxBy h l = none ↔ l = [] := by
  cases l with
  | nil => simp [firstMaxBy]
  | cons p ps =>
      cases hr : firstMaxBy h ps with
      | none => simp [firstMaxBy, hr]
      | some r => by_cases hc : h p < h r <;> simp [firstMaxBy, hr, hc]

theorem firstMaxBy_is_max {h : Dict → Rat} {l : List Dict} :
    ∀ {b : Dict}, firstMaxBy h l = some b → ∀ d ∈ l, h d ≤ h b := by
  induction l with
  | nil => intro b hb; simp [firstMaxBy] at hb
  | cons p ps ih =>
      intro b hb
      cases hr : firstMaxBy h ps with
      | none =>
          have he : ps = [] := (firstMaxBy_eq_none_iff h ps).mp hr
          simp only [firstMaxBy, hr] at hb
          obtain rfl : p = b := Option.some.inj hb
          intro d hd
          rcases List.mem_cons.mp hd with hd | hd
          · exact hd ▸ le_refl _
          · rw [he] at hd; simp at hd
      | some r =>
          simp only [firstMaxBy, hr] at hb
          by_cases hc : h p < h r
          · rw [if_pos hc] at hb
            obtain rfl : r = b := Option.some.inj hb
            intro d hd
            rcases List.mem_cons.mp hd with hd | hd
            · exact hd ▸ le_of_lt hc
            · exact ih hr d hd
          · rw [if_neg hc] at hb
            obtain rfl : p = b := Option.some.inj hb
            intro d hd
            rcases List.mem_cons.mp hd with hd | hd
            · exact hd ▸ le_refl _
            · exact le_trans (ih hr d hd) (not_lt.mp hc)

theorem survivors_sublist (ps : List Dict) : (survivors ps).Sublist ps :=
  List.filter_sublist ps

theorem select_best_spec (ps : List Dict)
    (hq : ∀ p ∈ ps, aget p "_quality_score" = none) :
    select_best_product ps
      = firstMaxBy calculate_product_quality_score (survivors ps) := by
  unfold select_best_product
  by_cases hps : ps.isEmpty
  · have : ps = [] := List.isEmpty_iff.mp hps
    subst this
    simp [survivors, firstMaxBy]
  · simp only [hps, if_false, Bool.false_eq_true]
    rw [validLoop_eq]
    by_cases hv : survivors ps = []
    · simp [hv, firstMaxBy]
    · have hvne : ¬((survivors ps).map
          (fun p => dictSet p "_quality_score" (.num (calculate_product_quality_score p)))).isEmpty := by
        simp [List.isEmpty_iff, hv]
      simp only [hvne, if_false, Bool.false_eq_true]
      rw [pymaxBy_map storedScore calculate_product_quality_score _ (fun p => storedScore_dictSet p _)]
      rw [pymaxBy_eq_firstMaxBy]
      cases hb : firstMaxBy calculate_product_quality_score (survivors ps) with
      | none => exact absurd ((firstMaxBy_eq_none_iff _ _).mp hb) hv
      | some b =>
          have hbmem : b ∈ ps := (survivors_sublist ps).mem (firstMaxBy_mem hb)
          simp only [Option.map_some']
          rw [dictDel_dictSet _ _ _ (hq b hbmem)]

/-!
Lifecycle-CO2 lemmas (`transform_environmental_data`).
-/

theorem obj_of_isObj {v : JVal} (h : v.isObj = true) : ∃ fs, v = .obj fs := by
  cases v <;> simp [JVal.isObj] at h ⊢

theorem obj_falsy_eq {v : JVal} (h1 : v.isObj = true) (h2 : v.truthy = false) :
    v = .obj [] := by
  cases v <;> simp [JVal.isObj] at h1
  rename_i fs
  cases fs <;> simp [JVal.truthy] at h2 ⊢

theorem wf_ed_isObj (p : Dict) (h : wfRecord p = true) :
    (dgetD p "ecoscore_data" (.obj [])).isObj = true := by
  unfold wfRecord at h
  rw [Bool.and_eq_true, Bool.and_eq_true] at h
  have h1 : presObj (aget p "ecoscore_data") = true := h.1.1
  unfold dgetD
  cases haget : aget p "ecoscore_data" with
  | none => simp [JVal.isObj]
  | some v =>
      rw [haget] at h1
      simpa [presObj, Option.getD] using h1

/-- The seven-field CO2 block built by `transform_environmental_data`
(`processing.py:109-117`), with zero defaults for missing sub-totals. -/
def agriBlock (a : JVal) : JVal :=
  .obj [("co2_total", a.getD "co2_total" (.num 0)),
        ("co2_agriculture", a.getD "co2_agriculture" (.num 0)),
        ("co2_consumption", a.getD "co2_consumption" (.num 0)),
        ("co2_distribution", a.getD "co2_distribution" (.num 0)),
        ("co2_packaging", a.getD "co2_packaging" (.num 0)),
        ("co2_processing", a.getD "co2_processing" (.num 0)),
        ("co2_transportation", a.getD "co2_transportation" (.num 0))]

theorem aget_agri_in_base (a b c : JVal) :
    aget [("adjusted_score", a), ("overall_grade", b), ("packaging_score", c)] "agribalyse"
      = none := by
  simp +decide [aget]

theorem agri_lookup_eq (p : Dict) (h : wfRecord p = true) :
    aget (transform_environmental_data p) "agribalyse"
      = (if (agribalyseOf p).truthy && (co2TotalPresentNonzero p || !warningFlagSet p)
         then some (agriBlock (agribalyseOf p)) else none) := by
  have hobj := wf_ed_isObj p h
  unfold transform_environmental_data
  by_cases hed : (dgetD p "ecoscore_data" (.obj [])).truthy = true
  · simp only [hed, Bool.not_true, Bool.false_eq_true, if_false]
    have hbase : aget (if !(transform_material_scores (dgetD p "ecoscore_data" (.obj []))).isEmpty
        then dictSet [("adjusted_score", (dgetD p "ecoscore_data" (.obj [])).getD "score" (.num 0)),
               ("overall_grade", (dgetD p "ecoscore_data" (.obj [])).getD "grade" (.str "")),
               ("packaging_score",
                 (((dgetD p "ecoscore_data" (.obj [])).getD "adjustments" (.obj [])).getD
                   "packaging" (.obj [])).getD "score" (.num 0))]
             "material_scores" (.obj (transform_material_scores (dgetD p "ecoscore_data" (.obj []))))
        else [("adjusted_score", (dgetD p "ecoscore_data" (.obj [])).getD "score" (.num 0)),
              ("overall_grade", (dgetD p "ecoscore_data" (.obj [])).getD "grade" (.str "")),
              ("packaging_score",
                (((dgetD p "ecoscore_data" (.obj [])).getD "adjustments" (.obj [])).getD
                  "packaging" (.obj [])).getD "score" (.num 0))]) "agribalyse" = none := by
      by_cases hms : (transform_material_scores (dgetD p "ecoscore_data" (.obj []))).isEmpty
      · simp only [hms, Bool.not_true, Bool.false_eq_true, if_false]
        exact aget_agri_in_base _ _ _
      · simp only [hms, Bool.not_false, if_true]
        rw [aget_dictSet_ne _ _ _ _ (by decide)]
        exact aget_agri_in_base _ _ _
    by_cases hat : (agribalyseOf p).truthy = true
    · by_cases hc : (co2TotalPresentNonzero p || !warningFlagSet p) = true
      · have hc' : (!((agribalyseOf p).getD "co2_total" .null).isNull &&
            ((agribalyseOf p).getD "co2_total" .null).pyNeZero
            || !((agribalyseOf p).getD "warning" .null).truthy) = true := by
          simpa [co2TotalPresentNonzero, warningFlagSet] using hc
        simp only [agribalyseOf] at hat hc'
        simp only [hat, hc', if_true, aget_dictSet_self]
        simp [agribalyseOf, hat, hc, agriBlock]
      · have hc' : (!((agribalyseOf p).getD "co2_total" .null).isNull &&
            ((agribalyseOf p).getD "co2_total" .null).pyNeZero
            || !((agribalyseOf p).getD "warning" .null).truthy) = false := by
          have := hc
          simp only [co2TotalPresentNonzero, warningFlagSet] at this
          simpa [agribalyseOf] using this
        simp only [agribalyseOf] at hat hc'
        simp only [hat, hc', Bool.false_eq_true, if_false, if_true, hbase]
        have hcf : (co2TotalPresentNonzero p || !warningFlagSet p) = false := by
          simpa using hc
        simp [agribalyseOf, hat, hcf]
    · have hat' : (agribalyseOf p).truthy = false := by simpa using hat
      simp only [agribalyseOf] at hat'
      simp only [hat', Bool.false_eq_true, if_false, hbase]
      simp [agribalyseOf, hat']
  · have hed' : (dgetD p "ecoscore_data" (.obj [])).truthy = false := by simpa using hed
    have hempty := obj_falsy_eq hobj hed'
    simp only [hed', Bool.not_false, if_true]
    rw [aget_agri_in_base]
    have hagf : (agribalyseOf p).truthy = false := by
      simp [agribalyseOf, hempty, JVal.getD, JVal.get?, aget, JVal.truthy]
    simp [hagf]

/-!
Claim C1: lifecycle-CO2 inclusion rule.
-/

/-- C1 counterexample: for `c1rec` the eco-score substructure is read and no
data-quality warning flag is set (so the claimed disjunction holds), yet the
lifecycle CO2 block is *not* included, because the agribalyse substructure is
missing entirely — the claimed if-and-only-if is false at this record. -/
theorem c1_missing_block_not_included :
    wfRecord c1rec = true ∧
    (dgetD c1rec "ecoscore_data" (.obj [])).truthy = true ∧
    (co2TotalPresentNonzero c1rec || !warningFlagSet c1rec) = true ∧
    includesLifecycleCO2 c1rec = false := by decide

/-- C1 (amended): for every well-formed record, the lifecycle CO2 block is
included in the output of the environmental-score transformation if and only
if the agribalyse substructure is itself present and non-empty AND
(`co2_total` is present and non-zero, or no data-quality warning flag is set);
when included, it carries the seven CO2 sub-totals with zero defaults.  In
particular a present-but-zero total with an active warning suppresses the
block, and an absent or empty agribalyse substructure always suppresses it. -/
theorem c1_lifecycle_co2_inclusion (p : Dict) (h : wfRecord p = true) :
    includesLifecycleCO2 p
        = ((agribalyseOf p).truthy && (co2TotalPresentNonzero p || !warningFlagSet p)) ∧
    aget (transform_environmental_data p) "agribalyse"
        = (if (agribalyseOf p).truthy && (co2TotalPresentNonzero p || !warningFlagSet p)
           then some (agriBlock (agribalyseOf p)) else none) := by
  refine ⟨?_, agri_lookup_eq p h⟩
  unfold includesLifecycleCO2
  rw [agri_lookup_eq p h]
  by_cases hc : ((agribalyseOf p).truthy && (co2TotalPresentNonzero p || !warningFlagSet p)) = true <;>
    simp [hc]

/-- C1 witness: the amended rule evaluated at a record with a present
agribalyse block, zero total and no warning — the block is included. -/
theorem c1_lifecycle_co2_inclusion_witness :
    wfRecord c1wit = true ∧
    includesLifecycleCO2 c1wit
      = ((agribalyseOf c1wit).truthy && (co2TotalPresentNonzero c1wit || !warningFlagSet c1wit)) :=
  ⟨by decide, (c1_lifecycle_co2_inclusion c1wit (by decide)).1⟩

/-!
Claim C2: `transform_single_product` success condition.
-/

/-- C2: for every well-formed raw record, `transform_single_product` returns a
normalized product exactly when both the id fallback chain (`code` then
`_id`) and the name fallback chain (`product_name` then `product_name_en`,
else `""`) resolve to truthy (non-empty) values; the produced record carries
exactly those resolved values as `id` and `name`, and otherwise the result is
`none` — never a partially-filled record. -/
theorem c2_normalize_iff (p : Dict) (h : wfRecord p = true) :
    ((transform_single_product p).isSome
        = ((resolvedId p).truthy && (resolvedName p).truthy)) ∧
    (∀ r, transform_single_product p = some r →
      aget r "id" = some (resolvedId p) ∧ aget r "name" = some (resolvedName p)) := by
  constructor
  · unfold transform_single_product
    by_cases h1 : (resolvedId p).truthy = true <;>
      by_cases h2 : (resolvedName p).truthy = true <;> simp [h1, h2]
  · intro r hr
    unfold transform_single_product at hr
    by_cases h1 : (resolvedId p).truthy = true <;>
      by_cases h2 : (resolvedName p).truthy = true <;> simp [h1, h2] at hr
    rw [← hr]
    constructor <;> simp +decide [aget]

/-- C2 witness: a record missing `code`, `_id` and both name fields yields no
normalized product. -/
theorem c2_normalize_iff_witness :
    wfRecord c2wit = true ∧ (transform_single_product c2wit).isSome = false := by
  refine ⟨by decide, ?_⟩
  rw [(c2_normalize_iff c2wit (by decide)).1]
  decide

/-!
Claims C3 and C10: `select_best_product`.
-/

/-- C3: for every list of well-formed raw records carrying no pre-existing
`_quality_score` key, `select_best_product` equals the first maximum by
quality score among the candidates that have a truthy eco-score substructure
and a strictly positive score (ties broken by input order), and it returns
`none` exactly when no candidate survives that filtering (in particular on an
empty list). -/
theorem c3_select_best (ps : List Dict) (hwf : ∀ p ∈ ps, wfRecord p = true)
    (hq : ∀ p ∈ ps, (aget p "_quality_score").isNone = true) :
    select_best_product ps = firstMaxBy calculate_product_quality_score (survivors ps) ∧
    (select_best_product ps = none ↔ survivors ps = []) := by
  have hq' : ∀ p ∈ ps, aget p "_quality_score" = none :=
    fun p hp => Option.isNone_iff_eq_none.mp (hq p hp)
  have hs := select_best_spec ps hq'
  refine ⟨hs, ?_⟩
  rw [hs, firstMaxBy_eq_none_iff]

/-- C3 witness: the selection rule evaluated on two equal-scoring records —
the earlier-indexed record wins. -/
theorem c3_select_best_witness :
    (∀ p ∈ c3ps, wfRecord p = true) ∧
    select_best_product c3ps = firstMaxBy calculate_product_quality_score (survivors c3ps) ∧
    select_best_product c3ps = some c3p1 := by
  have h1 : calculate_product_quality_score c3p1 = 40 := by
    simp +decide [calculate_product_quality_score, dgetD, aget, JVal.getD, JVal.get?, JVal.truthy,
      JVal.asRat, JVal.pyLen, JVal.asList, JVal.isNull, c3p1]
    norm_num
  have h2 : calculate_product_quality_score c3p2 = 40 := by
    simp +decide [calculate_product_quality_score, dgetD, aget, JVal.getD, JVal.get?, JVal.truthy,
      JVal.asRat, JVal.pyLen, JVal.asList, JVal.isNull, c3p2]
    norm_num
  have hsel := (c3_select_best c3ps (by decide) (by decide)).1
  have hk1 : keepCandidate c3p1 = true := by
    unfold keepCandidate
    rw [h1]
    decide
  have hk2 : keepCandidate c3p2 = true := by
    unfold keepCandidate
    rw [h2]
    decide
  have hsurv : survivors c3ps = [c3p1, c3p2] := by
    simp [survivors, c3ps, List.filter_cons, hk1, hk2]
  refine ⟨by decide, hsel, ?_⟩
  rw [hsel, hsurv]
  simp [firstMaxBy, h1, h2]

/-- C10: for every list of well-formed raw records none of which contains a
`_quality_score` key, whenever `select_best_product` returns a record, that
record is one of the input records and carries no `_quality_score` key (the
temporary scoring key is added to a copy and removed again before returning;
inputs are never mutated, which holds by construction in this pure
embedding). -/
theorem c10_select_frame (ps : List Dict) (hwf : ∀ p ∈ ps, wfRecord p = true)
    (hq : ∀ p ∈ ps, (aget p "_quality_score").isNone = true) :
    ∀ r, select_best_product ps = some r →
      r ∈ ps ∧ (aget r "_quality_score").isNone = true := by
  intro r hr
  have hq' : ∀ p ∈ ps, aget p "_quality_score" = none :=
    fun p hp => Option.isNone_iff_eq_none.mp (hq p hp)
  rw [select_best_spec ps hq'] at hr
  have hmem : r ∈ ps := (survivors_sublist ps).mem (firstMaxBy_mem hr)
  exact ⟨hmem, by rw [Option.isNone_iff_eq_none]; exact hq' r hmem⟩

/-- C10 witness: the frame property evaluated on the two-record list. -/
theorem c10_select_frame_witness :
    c3p1 ∈ c3ps ∧ (aget c3p1 "_quality_score").isNone = true := by
  have h1 : calculate_product_quality_score c3p1 = 40 := by
    simp +decide [calculate_product_quality_score, dgetD, aget, JVal.getD, JVal.get?, JVal.truthy,
      JVal.asRat, JVal.pyLen, JVal.asList, JVal.isNull, c3p1]
    norm_num
  have h2 : calculate_product_quality_score c3p2 = 40 := by
    simp +decide [calculate_product_quality_score, dgetD, aget, JVal.getD, JVal.get?, JVal.truthy,
      JVal.asRat, JVal.pyLen, JVal.asList, JVal.isNull, c3p2]
    norm_num
  have hsel : select_best_product c3ps = some c3p1 := by
    rw [select_best_spec c3ps (by intro p hp; fin_cases hp <;> rfl)]
    have hk1 : keepCandidate c3p1 = true := by
      unfold keepCandidate
      rw [h1]
      decide
    have hk2 : keepCandidate c3p2 = true := by
      unfold keepCandidate
      rw [h2]
      decide
    have hsurv : survivors c3ps = [c3p1, c3p2] := by
      simp [survivors, c3ps, List.filter_cons, hk1, hk2]
    rw [hsurv]
    simp [firstMaxBy, h1, h2]
  exact c10_select_frame c3ps (by decide) (by decide) c3p1 hsel

/-!
Quality-score lemmas (`calculate_product_quality_score`).
-/

theorem ite_add_shift (c : Prop) [Decidable c] (s a : Rat) :
    (if c then s + a else s) = s + (if c then a else 0) := by
  split <;> simp

theorem ite_sub_shift (c : Prop) [Decidable c] (s a : Rat) :
    (if c then s - a else s) = s + (if c then -a else 0) := by
  split <;> simp [sub_eq_add_neg]

theorem pyLen_falsy {v : JVal} (h : v.truthy = false) : v.pyLen = 0 := by
  cases v with
  | num q => rfl
  | str s =>
      simp [JVal.truthy] at h
      simp [JVal.pyLen, h]
  | arr xs =>
      simp [JVal.truthy, List.isEmpty_iff] at h
      simp [JVal.pyLen, h]
  | obj fs =>
      simp [JVal.truthy, List.isEmpty_iff] at h
      simp [JVal.pyLen, h]
  | null => rfl
  | bool b => rfl

theorem eco_term_eq (ed : JVal) (h : numOrFalsy (ed.getD "score" (.num 0)) = true) :
    (if (ed.getD "score" (.num 0)).truthy = true
     then (ed.getD "score" (.num 0)).asRat * (6 / 10) else 0) = ecoTerm ed := by
  unfold numOrFalsy at h
  unfold JVal.getD at h ⊢
  unfold ecoTerm
  cases hsc : ed.get? "score" with
  | none => simp [Option.getD, JVal.truthy, JVal.asRat]
  | some v =>
      rw [hsc] at h
      cases v with
      | num q =>
          by_cases hq : q = 0
          · subst hq; simp [Option.getD, JVal.truthy, JVal.asRat]
          · simp [Option.getD, JVal.truthy, JVal.asRat, hq]
      | null => simp [Option.getD, JVal.truthy]
      | bool b =>
          simp [Option.getD, JVal.truthy, JVal.isNum] at h
          simp [Option.getD, JVal.truthy, h]
      | str s =>
          simp [Option.getD, JVal.truthy, JVal.isNum] at h
          simp [Option.getD, JVal.truthy, h]
      | arr xs =>
          simp [Option.getD, JVal.truthy, JVal.isNum, List.isEmpty_iff] at h
          simp [Option.getD, JVal.truthy, h, List.isEmpty_iff]
      | obj fs =>
          simp [Option.getD, JVal.truthy, JVal.isNum, List.isEmpty_iff] at h
          simp [Option.getD, JVal.truthy, h, List.isEmpty_iff]

theorem cats_term_eq (cats : JVal) :
    (if cats.truthy = true then min ((cats.pyLen : Rat) * 2) 10 else 0)
      = min ((cats.pyLen : Rat) * 2) 10 := by
  by_cases h : cats.truthy = true
  · simp [h]
  · have h0 : cats.pyLen = 0 := pyLen_falsy (by simpa using h)
    rw [if_neg h, h0]
    norm_num

theorem agri_term_cond_eq (a : JVal) :
    (a.truthy && !(a.getD "co2_total" .null).isNull) = !(a.getD "co2_total" .null).isNull := by
  cases a with
  | obj fs =>
      cases fs with
      | nil => simp [JVal.truthy, JVal.getD, JVal.get?, aget, JVal.isNull]
      | cons e rest => simp [JVal.truthy]
  | null => simp [JVal.truthy, JVal.getD, JVal.get?, JVal.isNull]
  | bool b => cases b <;> simp [JVal.truthy, JVal.getD, JVal.get?, JVal.isNull]
  | num q =>
      by_cases hq : q = 0 <;> simp [JVal.truthy, JVal.getD, JVal.get?, JVal.isNull, hq]
  | str s => by_cases hs : s = "" <;> simp [JVal.truthy, JVal.getD, JVal.get?, JVal.isNull, hs]
  | arr xs => cases xs <;> simp [JVal.truthy, JVal.getD, JVal.get?, JVal.isNull, List.isEmpty_iff]

theorem packagings_cond_eq (pkg : JVal) (h : presArr (pkg.get? "packagings") = true) :
    (pkg.getD "packagings" .null).truthy
      = !(pkg.getD "packagings" (.arr [])).asList.isEmpty := by
  unfold JVal.getD
  cases hpp : pkg.get? "packagings" with
  | none => simp [Option.getD, JVal.truthy, JVal.asList]
  | some v =>
      rw [hpp] at h
      obtain ⟨xs, rfl⟩ : ∃ xs, v = .arr xs := by
        cases v <;> simp [presArr, JVal.isArr] at h ⊢
      simp [Option.getD, JVal.truthy, JVal.asList]

/-- The quality score agrees with the six-term spec formula on well-formed
records. -/
theorem quality_score_eq_spec (p : Dict) (h : wfRecord p = true) :
    calculate_product_quality_score p = specQualityScore p := by
  unfold wfRecord at h
  rw [Bool.and_eq_true, Bool.and_eq_true] at h
  have hwfe := h.1.2
  unfold wfEcoscoreData at hwfe
  simp only [Bool.and_eq_true] at hwfe
  obtain ⟨⟨⟨hadj, hpkg, hpkgs, hall⟩, hagri⟩, hscore⟩ := hwfe
  simp only [calculate_product_quality_score, specQualityScore]
  rw [ite_add_shift, ite_add_shift, ite_add_shift, ite_add_shift, ite_add_shift, ite_sub_shift]
  rw [eco_term_eq _ hscore]
  rw [cats_term_eq]
  rw [agri_term_cond_eq]
  rw [packagings_cond_eq _ hpkgs]
  ring

/-!
Claim C4: the per-candidate quality-score formula.
-/

/-- C4 counterexample: the record `[("code", ""), ("product_name", "A")]` has
the `code` key present (with an empty value), so the claimed formula applies
no identifier penalty and totals 10, but the code bases the −20 penalty on
truthiness rather than presence and returns 0. -/
theorem c4_present_empty_code :
    wfRecord c4rec = true ∧
    calculate_product_quality_score c4rec = 0 ∧
    claimedQualityScore c4rec = 10 := by
  refine ⟨by decide, ?_, ?_⟩
  · simp +decide [calculate_product_quality_score, dgetD, aget, JVal.getD, JVal.get?, JVal.truthy,
      JVal.asRat, JVal.pyLen, JVal.asList, JVal.isNull, c4rec]
  · simp +decide [claimedQualityScore, ecoTerm, dgetD, aget, JVal.getD, JVal.get?, JVal.truthy,
      JVal.pyLen, JVal.isNull, JVal.asList, c4rec]

/-- C4 (amended): for every well-formed raw record the quality score equals
the clamped sum `max 0 (ecoscore·0.6 + name bonus + category bonus +
CO2-total bonus + packaging bonus − identifier penalty)`, where the −20
identifier penalty fires when neither `code` nor `_id` resolves to a truthy
(non-empty) value — presence of the key with a falsy value does not avert the
penalty; a raw sum below 0 is clamped to 0 and such candidates are then
excluded by the strict `> 0` selection filter. -/
theorem c4_quality_score_formula (p : Dict) (h : wfRecord p = true) :
    calculate_product_quality_score p = specQualityScore p :=
  quality_score_eq_spec p h

/-- C4 witness: the amended formula evaluated at a record with a truthy
identifier. -/
theorem c4_quality_score_formula_witness :
    wfRecord c4wit = true ∧ calculate_product_quality_score c4wit = specQualityScore c4wit :=
  ⟨by decide, c4_quality_score_formula c4wit (by decide)⟩

/-!
Claim C9: the label normalizer.
-/

theorem labels_fold_eq (toks : List (List Char)) :
    ∀ acc, toks.foldl labelStep acc
      = acc ++ (((toks.map stripChars).filter (fun t => !t.isEmpty)).map labelClean) := by
  induction toks with
  | nil => intro acc; simp
  | cons tok rest ih =>
      intro acc
      rw [List.foldl_cons]
      by_cases he : (stripChars tok).isEmpty
      · have h1 : labelStep acc tok = acc := by simp [labelStep, he]
        rw [h1, ih]
        simp [List.filter_cons, he]
      · by_cases hs : startsEn (stripChars tok) = true
        · have h1 : labelStep acc tok
              = acc ++ [pyTitle (dashToSpace ((stripChars tok).drop 3))] := by
            simp [labelStep, he, hs]
          rw [h1, ih]
          simp [List.filter_cons, he, labelClean, hs]
        · have h1 : labelStep acc tok = acc ++ [pyTitle (dashToSpace (stripChars tok))] := by
            simp [labelStep, he, hs]
          rw [h1, ih]
          simp [List.filter_cons, he, labelClean, hs]

/-- C9 counterexample: on the token `"fr:bio"` the claimed pipeline strips the
language prefix and yields `["Bio"]`, but the code strips only `"en:"` and
yields `["Fr:Bio"]` — the language prefix survives into the output. -/
theorem c9_foreign_prefix_kept :
    transform_labels (.str "fr:bio") = ["Fr:Bio"] ∧
    (((splitComma "fr:bio".data).map stripChars).filter
        (fun t => !t.isEmpty)).map claimedLabelClean = ["Bio"] ∧
    ("Fr:Bio" : String) ≠ "Bio" := by decide

/-- C9 (amended): for every labels string, the normalizer splits on commas,
trims whitespace per token, drops empty tokens, strips the English language
prefix `"en:"` (and only that prefix) from a token carrying it, replaces
hyphens with spaces and title-cases, preserving token order; in particular
`"en:organic,en:fair-trade"` maps to `["Organic", "Fair Trade"]`. -/
theorem c9_label_normalizer :
    (∀ s : String, transform_labels (.str s) = specLabels s) ∧
    transform_labels (.str "en:organic,en:fair-trade") = ["Organic", "Fair Trade"] := by
  constructor
  · intro s
    by_cases hempty : s = ""
    · subst hempty; decide
    · have ht : (JVal.str s).truthy = true := by simp [JVal.truthy, hempty]
      simp only [transform_labels, specLabels, ht, Bool.not_true, Bool.false_eq_true, if_false]
      rw [labels_fold_eq]
      simp
  · decide

/-!
Claim C8: the material-score mapping.
-/

theorem aget_dictSet_isSome {α : Type} (m : List (String × α)) (k k' : String) (v : α)
    (h : (aget m k).isSome = true) : (aget (dictSet m k' v) k).isSome = true := by
  by_cases hk : k' = k
  · subst hk; simp [aget_dictSet_self]
  · rw [aget_dictSet_ne _ _ _ _ hk]; exact h

theorem material_fold_isSome (l : List JVal) :
    ∀ m k, (aget m k).isSome = true → (aget (l.foldl materialStep m) k).isSome = true := by
  induction l with
  | nil => intro m k h; exact h
  | cons pk rest ih =>
      intro m k h
      rw [List.foldl_cons]
      refine ih _ k ?_
      unfold materialStep
      by_cases hm : (pk.getD "material" (.str "")).truthy = true
      · simp only [hm, if_true]
        exact aget_dictSet_isSome _ _ _ _ h
      · simp only [hm, Bool.false_eq_true, if_false]
        exact h

theorem material_fold_contributes (l : List JVal) :
    ∀ m, ∀ pk ∈ l, (pk.getD "material" (.str "")).truthy = true →
      (aget (l.foldl materialStep m)
        (materialKey (pk.getD "material" (.str "")).asStr)).isSome = true := by
  induction l with
  | nil => intro m pk hpk; simp at hpk
  | cons q rest ih =>
      intro m pk hpk hm
      rw [List.foldl_cons]
      rcases List.mem_cons.mp hpk with h1 | h1
      · subst h1
        refine material_fold_isSome rest _ _ ?_
        unfold materialStep
        simp only [hm, if_true, aget_dictSet_self, Option.isSome_some]
      · exact ih _ pk h1 hm

theorem material_fold_origin (l : List JVal) :
    ∀ m k v, aget (l.foldl materialStep m) k = some v →
      aget m k = some v ∨
      ∃ pk ∈ l, (pk.getD "material" (.str "")).truthy = true ∧
        k = materialKey (pk.getD "material" (.str "")).asStr ∧ v = materialEntry pk := by
  induction l with
  | nil => intro m k v h; exact Or.inl h
  | cons q rest ih =>
      intro m k v h
      rw [List.foldl_cons] at h
      rcases ih _ k v h with h1 | h1
      · unfold materialStep at h1
        by_cases hm : (q.getD "material" (.str "")).truthy = true
        · simp only [hm, if_true] at h1
          by_cases hk : k = materialKey (q.getD "material" (.str "")).asStr
          · subst hk
            rw [aget_dictSet_self] at h1
            right
            exact ⟨q, List.mem_cons_self _ _, hm, rfl, (Option.some.inj h1).symm⟩
          · rw [aget_dictSet_ne _ _ _ _ (fun h2 => hk h2.symm)] at h1
            exact Or.inl h1
        · simp only [hm, Bool.false_eq_true, if_false] at h1
          exact Or.inl h1
      · obtain ⟨pk, hmem, hrest⟩ := h1
        exact Or.inr ⟨pk, List.mem_cons_of_mem _ hmem, hrest⟩

/-- C8 counterexample: for material id `"x-en:y"` the code removes the inner
`"en:"` occurrence (global string replacement) and stores the entry under
`"X_Y"`, while the claimed prefix-strip formula predicts key `"X_EN:Y"`,
which is absent from the mapping. -/
theorem c8_inner_tag_removed :
    wfEcoscoreData c8ed = true ∧
    materialKey "x-en:y" = "X_Y" ∧
    claimedMaterialKey "x-en:y" = "X_EN:Y" ∧
    (aget (transform_material_scores c8ed) "X_Y").isSome = true ∧
    (aget (transform_material_scores c8ed) (claimedMaterialKey "x-en:y")).isSome = false := by
  decide

/-- C8 (amended): for every well-formed eco-score substructure, every
packaging entry with a truthy material id contributes an entry to the
material-scores mapping under the key
`uppercase(replace_hyphens(remove_every "en:" material_id))` — every
occurrence of `"en:"` is removed, not only a leading prefix — and every
stored entry arises from such a packaging item, carrying the six fields
{material, packaging_id (same value), material-score, shape-ratio, raw shape
label, `"en:"`-removed shape id}; entries with no material id contribute
nothing. -/
theorem c8_material_key (ed : JVal) (h : wfEcoscoreData ed = true) :
    (∀ pk ∈ (((ed.getD "adjustments" (.obj [])).getD "packaging" (.obj [])).getD
        "packagings" (.arr [])).asList,
      (pk.getD "material" (.str "")).truthy = true →
      (aget (transform_material_scores ed)
        (materialKey (pk.getD "material" (.str "")).asStr)).isSome = true) ∧
    (∀ k v, aget (transform_material_scores ed) k = some v →
      ∃ pk ∈ (((ed.getD "adjustments" (.obj [])).getD "packaging" (.obj [])).getD
          "packagings" (.arr [])).asList,
        (pk.getD "material" (.str "")).truthy = true ∧
        k = materialKey (pk.getD "material" (.str "")).asStr ∧ v = materialEntry pk) := by
  constructor
  · intro pk hpk hm
    exact material_fold_contributes _ [] pk hpk hm
  · intro k v hv
    rcases material_fold_origin _ [] k v hv with h1 | h1
    · simp [aget] at h1
    · exact h1

/-- C8 witness: the amended key rule evaluated at the concrete packaging item
with material `"x-en:y"`. -/
theorem c8_material_key_witness :
    wfEcoscoreData c8ed = true ∧
    (aget (transform_material_scores c8ed)
      (materialKey (c8pk.getD "material" (.str "")).asStr)).isSome = true :=
  ⟨by decide,
   (c8_material_key c8ed (by decide)).1 c8pk (List.mem_cons_self c8pk []) (by decide)⟩

/-!
Claim C7: the fetched-candidate score/grade mapping.
-/

/-- C7 counterexample: `c7rec` carries a present, numeric, parseable eco-score
of 0 and grade `"a"`; the claim says the score is taken directly (0), but the
`or`-fallback chain treats the falsy 0 as absent and the emitted candidate
gets the grade-derived default 80. -/
theorem c7_zero_score_falls_back :
    wfFetchRecord c7rec = true ∧
    dgetD c7rec "ecoscore_score" .null = .num 0 ∧
    (processOne pfNone c7rec 0).map Candidate.ecoscore_score = some 80 ∧
    claimedFetchScore pfNone c7rec = 0 ∧
    ¬((processOne pfNone c7rec 0).map Candidate.ecoscore_score
        = some (claimedFetchScore pfNone c7rec)) := by
  refine ⟨by decide, rfl, by decide, by decide, by decide⟩

/-- C7 (amended): for every well-formed raw product with a truthy name, the
emitted candidate's score is the `float`-parsed value of the eco-score
fallback chain when that chain resolves to a non-`None` value that parses —
a present-but-falsy (zero or empty) `ecoscore_score` falls through the chain
as if absent — and otherwise the grade-derived default from
`{a:80, b:65, c:50, d:35, e:20}` with 50 as the absolute fallback; the stored
grade defaults to `"c"` when the grade chain is falsy, and a product with no
truthy name is skipped. -/
theorem c7_fetch_score_mapping (pf : String → Option Rat) (p : Dict) (k : Nat)
    (h : wfFetchRecord p = true) :
    ((nameChain p).truthy = false → processOne pf p k = none) ∧
    ((nameChain p).truthy = true → processOne pf p k
        = some { id := dgetD p "_id" (.str ("rec_" ++ toString k)),
                 product_name := (nameChain p).asStr,
                 ecoscore_score := amendedFetchScore pf p,
                 ecoscore_grade :=
                   if (gradeChain p).truthy then (gradeChain p).asStr else "c" }) := by
  constructor
  · intro h1
    simp [processOne, h1]
  · intro h1
    simp only [processOne, h1, if_true]
    have hs : (if (ecoChain p).isNull = true
          then (if (gradeChain p).truthy = true
                then (grade_scores (pyLower (gradeChain p).asStr)).getD 50 else 50)
          else match pyFloat pf (ecoChain p) with
               | some q => q
               | none => (if (gradeChain p).truthy = true
                          then (grade_scores (pyLower (gradeChain p).asStr)).getD 50 else 50))
        = amendedFetchScore pf p := by
      unfold amendedFetchScore gradeDefaultScore
      cases hpf : pyFloat pf (ecoChain p) <;> simp [Option.getD, hpf]
    rw [hs]

/-- C7 witness: the amended mapping evaluated at a product with a truthy name
and a non-zero numeric score. -/
theorem c7_fetch_score_mapping_witness :
    wfFetchRecord c7wit = true ∧
    processOne pfNone c7wit 0
      = some { id := dgetD c7wit "_id" (.str ("rec_" ++ toString 0)),
               product_name := (nameChain c7wit).asStr,
               ecoscore_score := amendedFetchScore pfNone c7wit,
               ecoscore_grade :=
                 if (gradeChain c7wit).truthy then (gradeChain c7wit).asStr else "c" } :=
  ⟨by decide, (c7_fetch_score_mapping pfNone c7wit 0 (by decide)).2 (by decide)⟩

/-!
Aggregation lemmas (`aggregate_and_rank_products`).
-/

theorem foldl_append_eq (fetch : String → List Candidate) (categories : List String) :
    ∀ acc : List Candidate,
      categories.foldl (fun acc category => acc ++ fetch category) acc
        = acc ++ allFetched fetch categories := by
  induction categories with
  | nil => intro acc; simp [allFetched]
  | cons c rest ih =>
      intro acc
      rw [List.foldl_cons, ih]
      simp [allFetched]

theorem aggregate_eq (fetch : String → List Candidate) (categories : List String) (top_n : Nat) :
    aggregate_and_rank_products fetch categories top_n
      = if (allFetched fetch categories).isEmpty then []
        else ((((allFetched fetch categories).foldl dedupStep []).map
            Prod.snd).insertionSort scoreGE).take top_n := by
  unfold aggregate_and_rank_products
  rw [show categories.foldl (fun acc category => acc ++ fetch category) []
      = allFetched fetch categories by simpa using foldl_append_eq fetch categories []]

theorem dedupStep_lookup_ne (m : List (String × Candidate)) (p : Candidate) (n : String)
    (h : p.product_name ≠ n) : aget (dedupStep m p) n = aget m n := by
  unfold dedupStep
  cases hm : aget m p.product_name with
  | none =>
      rw [aget_append]
      cases hn : aget m n <;> simp [aget, h, hn]
  | some q =>
      by_cases hlt : q.ecoscore_score < p.ecoscore_score
      · simp only [hlt, if_true]
        exact aget_dictSet_ne _ _ _ _ h
      · simp [hlt]

theorem dedupStep_lookup_self_none (m : List (String × Candidate)) (p : Candidate)
    (hm : aget m p.product_name = none) :
    aget (dedupStep m p) p.product_name = some p := by
  unfold dedupStep
  rw [hm, aget_append, hm]
  simp [aget]

theorem dedupStep_lookup_self_lt (m : List (String × Candidate)) (p q : Candidate)
    (hm : aget m p.product_name = some q) (hlt : q.ecoscore_score < p.ecoscore_score) :
    aget (dedupStep m p) p.product_name = some p := by
  unfold dedupStep
  rw [hm]
  simp only [hlt, if_true]
  exact aget_dictSet_self _ _ _

theorem dedupStep_lookup_self_ge (m : List (String × Candidate)) (p q : Candidate)
    (hm : aget m p.product_name = some q) (hge : ¬q.ecoscore_score < p.ecoscore_score) :
    aget (dedupStep m p) p.product_name = some q := by
  unfold dedupStep
  rw [hm]
  simp [hge, hm]

theorem dedup_fold_key_name (l : List Candidate) :
    ∀ m, (∀ e ∈ m, (Prod.snd e).product_name = Prod.fst e) →
      ∀ e ∈ l.foldl dedupStep m, (Prod.snd e).product_name = Prod.fst e := by
  induction l with
  | nil => intro m hm; exact hm
  | cons p rest ih =>
      intro m hm
      rw [List.foldl_cons]
      refine ih _ ?_
      intro e he
      unfold dedupStep at he
      cases hget : aget m p.product_name with
      | none =>
          rw [hget] at he
          rcases List.mem_append.mp he with h1 | h1
          · exact hm e h1
          · simp at h1
            simp [h1]
      | some q =>
          rw [hget] at he
          dsimp only at he
          by_cases hlt : q.ecoscore_score < p.ecoscore_score
          · rw [if_pos hlt] at he
            rcases mem_dictSet he with h1 | h1
            · exact hm e h1
            · simp [h1]
          · rw [if_neg hlt] at he
            exact hm e he

theorem dedup_fold_keys_nodup (l : List Candidate) :
    ∀ m, ((m.map Prod.fst).Nodup) → (((l.foldl dedupStep m).map Prod.fst).Nodup) := by
  induction l with
  | nil => intro m hm; exact hm
  | cons p rest ih =>
      intro m hm
      rw [List.foldl_cons]
      refine ih _ ?_
      unfold dedupStep
      cases hget : aget m p.product_name with
      | none =>
          have hfresh : p.product_name ∉ m.map Prod.fst := (aget_eq_none_iff _ _).mp hget
          rw [List.map_append]
          rw [List.nodup_append]
          refine ⟨hm, List.nodup_singleton _, ?_⟩
          intro a ha hb
          simp at hb
          exact hfresh (hb ▸ ha)
      | some q =>
          dsimp only
          by_cases hlt : q.ecoscore_score < p.ecoscore_score
          · rw [if_pos hlt]
            rw [keys_dictSet_mem]
            · exact hm
            · rw [← aget_isSome_iff, hget]
              rfl
          · rw [if_neg hlt]
            exact hm

theorem dedup_fold_lookup (l : List Candidate) :
    ∀ m n c, aget (l.foldl dedupStep m) n = some c →
      (aget m n = some c ∨ (c ∈ l ∧ c.product_name = n)) ∧
      (∀ d ∈ l, d.product_name = n → d.ecoscore_score ≤ c.ecoscore_score) ∧
      (∀ c₀, aget m n = some c₀ → c₀.ecoscore_score ≤ c.ecoscore_score) := by
  induction l with
  | nil =>
      intro m n c h
      rw [List.foldl_nil] at h
      refine ⟨Or.inl h, by simp, fun c₀ h₀ => ?_⟩
      rw [h] at h₀
      exact le_of_eq (congrArg Candidate.ecoscore_score (Option.some.inj h₀).symm)
  | cons p rest ih =>
      intro m n c h
      rw [List.foldl_cons] at h
      obtain ⟨horig, hmax, hmono⟩ := ih _ n c h
      by_cases hn : p.product_name = n
      · subst hn
        cases hm : aget m p.product_name with
        | none =>
            have hm' : aget (dedupStep m p) p.product_name = some p :=
              dedupStep_lookup_self_none m p hm
            have hple : p.ecoscore_score ≤ c.ecoscore_score := hmono p hm'
            refine ⟨?_, ?_, ?_⟩
            · rcases horig with h1 | h1
              · rw [hm'] at h1
                obtain rfl : p = c := Option.some.inj h1
                exact Or.inr ⟨List.mem_cons_self _ _, rfl⟩
              · exact Or.inr ⟨List.mem_cons_of_mem _ h1.1, h1.2⟩
            · intro d hd hdn
              rcases List.mem_cons.mp hd with h1 | h1
              · exact h1 ▸ hple
              · exact hmax d h1 hdn
            · intro c₀ h₀
              exact absurd h₀ (by simp)
        | some q =>
            by_cases hlt : q.ecoscore_score < p.ecoscore_score
            · have hm' : aget (dedupStep m p) p.product_name = some p :=
                dedupStep_lookup_self_lt m p q hm hlt
              have hple : p.ecoscore_score ≤ c.ecoscore_score := hmono p hm'
              refine ⟨?_, ?_, ?_⟩
              · rcases horig with h1 | h1
                · rw [hm'] at h1
                  obtain rfl : p = c := Option.some.inj h1
                  exact Or.inr ⟨List.mem_cons_self _ _, rfl⟩
                · exact Or.inr ⟨List.mem_cons_of_mem _ h1.1, h1.2⟩
              · intro d hd hdn
                rcases List.mem_cons.mp hd with h1 | h1
                · exact h1 ▸ hple
                · exact hmax d h1 hdn
              · intro c₀ h₀
                rw [← Option.some.inj h₀]
                exact le_trans (le_of_lt hlt) hple
            · have hm' : aget (dedupStep m p) p.product_name = some q :=
                dedupStep_lookup_self_ge m p q hm hlt
              have hqle : q.ecoscore_score ≤ c.ecoscore_score := hmono q hm'
              refine ⟨?_, ?_, ?_⟩
              · rcases horig with h1 | h1
                · rw [hm'] at h1
                  exact Or.inl h1
                · exact Or.inr ⟨List.mem_cons_of_mem _ h1.1, h1.2⟩
              · intro d hd hdn
                rcases List.mem_cons.mp hd with h1 | h1
                · exact h1 ▸ le_trans (not_lt.mp hlt) hqle
                · exact hmax d h1 hdn
              · intro c₀ h₀
                rw [← Option.some.inj h₀]
                exact hqle
      · have hm' : aget (dedupStep m p) n = aget m n := dedupStep_lookup_ne m p n hn
        refine ⟨?_, ?_, ?_⟩
        · rcases horig with h1 | h1
          · rw [hm'] at h1
            exact Or.inl h1
          · exact Or.inr ⟨List.mem_cons_of_mem _ h1.1, h1.2⟩
        · intro d hd hdn
          rcases List.mem_cons.mp hd with h1 | h1
          · exact absurd (h1 ▸ hdn) hn
          · exact hmax d h1 hdn
        · intro c₀ h₀
          refine hmono c₀ ?_
          rw [hm', h₀]

theorem dedup_fold_isSome (l : List Candidate) :
    ∀ m n, (aget (l.foldl dedupStep m) n).isSome = true ↔
      ((aget m n).isSome = true ∨ n ∈ l.map Candidate.product_name) := by
  induction l with
  | nil => intro m n; simp
  | cons p rest ih =>
      intro m n
      rw [List.foldl_cons, ih]
      have hstep : (aget (dedupStep m p) n).isSome = true ↔
          ((aget m n).isSome = true ∨ p.product_name = n) := by
        by_cases hn : p.product_name = n
        · subst hn
          cases hm : aget m p.product_name with
          | none => rw [dedupStep_lookup_self_none m p hm]; simp
          | some q =>
              by_cases hlt : q.ecoscore_score < p.ecoscore_score
              · rw [dedupStep_lookup_self_lt m p q hm hlt]; simp
              · rw [dedupStep_lookup_self_ge m p q hm hlt]; simp [hm]
        · rw [dedupStep_lookup_ne m p n hn]; simp [hn]
      rw [hstep]
      simp only [List.map_cons, List.mem_cons]
      constructor
      · rintro ((h | h) | h)
        · exact Or.inl h
        · exact Or.inr (Or.inl h.symm)
        · exact Or.inr (Or.inr h)
      · rintro (h | h | h)
        · exact Or.inl (Or.inl h)
        · exact Or.inl (Or.inr h.symm)
        · exact Or.inr h

theorem dedup_values_names_nodup (all : List Candidate) :
    (((all.foldl dedupStep []).map Prod.snd).map Candidate.product_name).Nodup := by
  have hkeys := dedup_fold_keys_nodup all [] (by simp)
  have hnames := dedup_fold_key_name all [] (by simp)
  have hmapeq : ((all.foldl dedupStep []).map Prod.snd).map Candidate.product_name
      = (all.foldl dedupStep []).map Prod.fst := by
    rw [List.map_map]
    exact List.map_congr_left (fun e he => hnames e he)
  exact hmapeq ▸ hkeys

theorem dedup_values_nodup (all : List Candidate) :
    ((all.foldl dedupStep []).map Prod.snd).Nodup :=
  (dedup_values_names_nodup all).of_map

theorem dedup_values_mem (all : List Candidate) {c : Candidate}
    (h : c ∈ (all.foldl dedupStep []).map Prod.snd) :
    c ∈ all ∧ ∀ d ∈ all, d.product_name = c.product_name →
      d.ecoscore_score ≤ c.ecoscore_score := by
  obtain ⟨e, he, hsnd⟩ := List.mem_map.mp h
  have hkeys := dedup_fold_keys_nodup all [] (by simp)
  have hname := dedup_fold_key_name all [] (by simp) e he
  obtain ⟨k, v⟩ := e
  have hag : aget (all.foldl dedupStep []) k = some v := mem_aget hkeys he
  rcases dedup_fold_lookup all [] k v hag with ⟨horig, hmax, _⟩
  rcases horig with h1 | h1
  · simp [aget] at h1
  · subst hsnd
    refine ⟨h1.1, fun d hd hdn => hmax d hd ?_⟩
    simp only at hname
    rw [hdn, hname]

theorem dedup_values_length (all : List Candidate) :
    ((all.foldl dedupStep []).map Prod.snd).length
      = ((all.map Candidate.product_name).toFinset.card) := by
  rw [List.length_map]
  have hkeys := dedup_fold_keys_nodup all [] (by simp)
  have hlen : ((all.foldl dedupStep []).map Prod.fst).length = (all.foldl dedupStep []).length :=
    List.length_map _ _
  rw [← hlen, ← List.toFinset_card_of_nodup hkeys]
  congr 1
  ext n
  simp only [List.mem_toFinset]
  rw [← aget_isSome_iff, dedup_fold_isSome all [] n]
  simp [aget]

/-!
Claim C6: aggregation, dedup and ranking.
-/

/-- C6: for every fetch function, category list and `top_n`, the aggregation
merges all per-category candidate lists, deduplicates by exact name keeping a
highest-scoring entry per name, sorts the survivors by score descending
(stable), and returns the top `top_n`: the result has `min top_n
(#distinct names)` entries, is sorted by score descending, has pairwise
distinct names, every returned candidate is a fetched candidate whose score
is maximal among fetched candidates of the same name, and — top-ness — every
fetched candidate whose name is omitted from the result scores no higher
than any returned candidate; an empty category list or zero fetched
candidates yields the empty sequence. -/
theorem c6_aggregate (fetch : String → List Candidate) (categories : List String) (top_n : Nat) :
    (aggregate_and_rank_products fetch categories top_n).length
        = min top_n ((allFetched fetch categories).map Candidate.product_name).toFinset.card ∧
    List.Sorted scoreGE (aggregate_and_rank_products fetch categories top_n) ∧
    ((aggregate_and_rank_products fetch categories top_n).map Candidate.product_name).Nodup ∧
    (∀ c ∈ aggregate_and_rank_products fetch categories top_n,
      c ∈ allFetched fetch categories ∧
      ∀ d ∈ allFetched fetch categories, d.product_name = c.product_name →
        d.ecoscore_score ≤ c.ecoscore_score) ∧
    (categories = [] → aggregate_and_rank_products fetch categories top_n = []) ∧
    (allFetched fetch categories = [] → aggregate_and_rank_products fetch categories top_n = []) ∧
    (∀ c ∈ aggregate_and_rank_products fetch categories top_n,
      ∀ d ∈ allFetched fetch categories,
        d.product_name ∉ (aggregate_and_rank_products fetch categories top_n).map
            Candidate.product_name →
          d.ecoscore_score ≤ c.ecoscore_score) := by
  rw [aggregate_eq]
  by_cases hall : (allFetched fetch categories).isEmpty
  · have he : allFetched fetch categories = [] := List.isEmpty_iff.mp hall
    simp [hall, he]
  · simp only [hall, Bool.false_eq_true, if_false]
    have hsorted : List.Sorted scoreGE
        ((((allFetched fetch categories).foldl dedupStep []).map Prod.snd).insertionSort scoreGE) :=
      List.sorted_insertionSort scoreGE _
    have hperm := List.perm_insertionSort scoreGE
      (((allFetched fetch categories).foldl dedupStep []).map Prod.snd)
    refine ⟨?_, ?_, ?_, ?_, ?_, ?_, ?_⟩
    · rw [List.length_take, hperm.length_eq, dedup_values_length]
    · exact List.Pairwise.sublist (List.take_sublist _ _) hsorted
    · have h1 := dedup_values_names_nodup (allFetched fetch categories)
      have h2 := ((hperm.map Candidate.product_name).nodup_iff).mpr h1
      exact List.Nodup.sublist ((List.take_sublist _ _).map Candidate.product_name) h2
    · intro c hc
      have hc1 : c ∈ ((allFetched fetch categories).foldl dedupStep []).map Prod.snd :=
        hperm.mem_iff.mp ((List.take_sublist _ _).subset hc)
      exact dedup_values_mem _ hc1
    · intro h0
      subst h0
      simp [allFetched] at hall
    · intro h0
      rw [h0] at hall
      simp at hall
    · intro c hc d hd hnot
      have hnamesome : (aget ((allFetched fetch categories).foldl dedupStep [])
          d.product_name).isSome = true := by
        rw [dedup_fold_isSome (allFetched fetch categories) [] d.product_name]
        exact Or.inr (List.mem_map_of_mem _ hd)
      obtain ⟨v, hv⟩ := Option.isSome_iff_exists.mp hnamesome
      rcases dedup_fold_lookup (allFetched fetch categories) [] d.product_name v hv with
        ⟨horig, hmax, _⟩
      rcases horig with h1 | h1
      · simp [aget] at h1
      · have hdv : d.ecoscore_score ≤ v.ecoscore_score := hmax d hd rfl
        have hvvalues : v ∈ ((allFetched fetch categories).foldl dedupStep []).map Prod.snd :=
          List.mem_map.mpr ⟨(d.product_name, v), aget_mem hv, rfl⟩
        have hvsorted : v ∈ (((allFetched fetch categories).foldl dedupStep []).map
            Prod.snd).insertionSort scoreGE := hperm.mem_iff.mpr hvvalues
        have hvnotout : v ∉ ((((allFetched fetch categories).foldl dedupStep []).map
            Prod.snd).insertionSort scoreGE).take top_n := by
          intro hvin
          exact hnot (h1.2 ▸ List.mem_map_of_mem Candidate.product_name hvin)
        have hvdrop : v ∈ ((((allFetched fetch categories).foldl dedupStep []).map
            Prod.snd).insertionSort scoreGE).drop top_n := by
          rcases List.mem_append.mp ((List.take_append_drop top_n
              ((((allFetched fetch categories).foldl dedupStep []).map
                Prod.snd).insertionSort scoreGE)).symm ▸ hvsorted) with h2 | h2
          · exact absurd h2 hvnotout
          · exact h2
        have hpair := (List.pairwise_append.mp ((List.take_append_drop top_n
            ((((allFetched fetch categories).foldl dedupStep []).map
              Prod.snd).insertionSort scoreGE)).symm ▸ hsorted)).2.2
        exact le_trans hdv (hpair c hc v hvdrop)

/-- C6 witness: the aggregation contract instantiated at a concrete fetch. -/
theorem c6_aggregate_witness :
    List.Sorted scoreGE (aggregate_and_rank_products fetchAC ["cat1", "cat2"] 3) :=
  (c6_aggregate fetchAC ["cat1", "cat2"] 3).2.1

/-!
Claim C5: order-(in)dependence of aggregation.
-/

theorem dedup_values_mem_iff (all : List Candidate)
    (hnd : (all.map Candidate.ecoscore_score).Nodup) (c : Candidate) :
    c ∈ (all.foldl dedupStep []).map Prod.snd ↔
      (c ∈ all ∧ ∀ d ∈ all, d.product_name = c.product_name →
        d.ecoscore_score ≤ c.ecoscore_score) := by
  constructor
  · exact fun h => dedup_values_mem all h
  · rintro ⟨hmem, hmax⟩
    have hname : c.product_name ∈ all.map Candidate.product_name :=
      List.mem_map_of_mem _ hmem
    have hsome : (aget (all.foldl dedupStep []) c.product_name).isSome = true := by
      rw [dedup_fold_isSome all [] c.product_name]
      exact Or.inr hname
    obtain ⟨c', hc'⟩ := Option.isSome_iff_exists.mp hsome
    rcases dedup_fold_lookup all [] c.product_name c' hc' with ⟨horig, hmax', _⟩
    rcases horig with h1 | h1
    · simp [aget] at h1
    · have h2 : c'.ecoscore_score ≤ c.ecoscore_score := hmax c' h1.1 h1.2
      have h3 : c.ecoscore_score ≤ c'.ecoscore_score := hmax' c hmem rfl
      have hcc : c = c' :=
        List.inj_on_of_nodup_map hnd hmem h1.1 (le_antisymm h3 h2)
      subst hcc
      exact List.mem_map.mpr ⟨(c.product_name, c), aget_mem hc', rfl⟩

theorem scores_nodup_values (all : List Candidate)
    (hnd : (all.map Candidate.ecoscore_score).Nodup) :
    (((all.foldl dedupStep []).map Prod.snd).map Candidate.ecoscore_score).Nodup := by
  refine List.Nodup.map_on ?_ (dedup_values_nodup all)
  intro x hx y hy hxy
  exact List.inj_on_of_nodup_map hnd (dedup_values_mem all hx).1 (dedup_values_mem all hy).1 hxy

theorem sorted_strict_of_nodup_scores {l : List Candidate}
    (hs : List.Sorted scoreGE l) (hnd : (l.map Candidate.ecoscore_score).Nodup) :
    List.Sorted (fun a b : Candidate => b.ecoscore_score < a.ecoscore_score) l := by
  have hne : List.Pairwise
      (fun a b : Candidate => a.ecoscore_score ≠ b.ecoscore_score) l :=
    List.pairwise_map.mp hnd
  exact (hs.and hne).imp (fun h => lt_of_le_of_ne h.1 h.2.symm)

/-- C5 counterexample: the fetches `fetchAB` and `fetchBA` deliver the same
two candidates (a permutation of the concatenated candidate sequence), both
with score 50, yet the returned top-N sequences differ — with score ties the
final ranked result does depend on arrival order. -/
theorem c5_tie_order_dependent :
    (allFetched fetchAB ["cat1", "cat2"]).Perm (allFetched fetchBA ["cat1", "cat2"]) ∧
    (aggregate_and_rank_products fetchAB ["cat1", "cat2"] 3).map Candidate.product_name
      = ["A", "B"] ∧
    (aggregate_and_rank_products fetchBA ["cat1", "cat2"] 3).map Candidate.product_name
      = ["B", "A"] ∧
    aggregate_and_rank_products fetchAB ["cat1", "cat2"] 3
      ≠ aggregate_and_rank_products fetchBA ["cat1", "cat2"] 3 := by
  have hab : (aggregate_and_rank_products fetchAB ["cat1", "cat2"] 3).map Candidate.product_name
      = ["A", "B"] := by decide
  have hba : (aggregate_and_rank_products fetchBA ["cat1", "cat2"] 3).map Candidate.product_name
      = ["B", "A"] := by decide
  refine ⟨List.Perm.swap candB candA [], hab, hba, ?_⟩
  intro hcontra
  rw [hcontra, hba] at hab
  exact absurd hab (by decide)

/-- C5 (amended): holding the fetched candidates fixed, the returned top-N
sequence is unchanged under any permutation of the concatenated candidate
sequence **provided no two fetched candidates share a score**; with score
ties only the multiset of returned scores is preserved, not the sequence (see
the counterexample). -/
theorem c5_order_invariance (f₁ f₂ : String → List Candidate)
    (cats₁ cats₂ : List String) (n : Nat)
    (hperm : (allFetched f₁ cats₁).Perm (allFetched f₂ cats₂))
    (hnd : ((allFetched f₁ cats₁).map Candidate.ecoscore_score).Nodup) :
    aggregate_and_rank_products f₁ cats₁ n = aggregate_and_rank_products f₂ cats₂ n := by
  have hnd₂ : ((allFetched f₂ cats₂).map Candidate.ecoscore_score).Nodup :=
    (hperm.map Candidate.ecoscore_score).nodup_iff.mp hnd
  rw [aggregate_eq, aggregate_eq]
  by_cases hall : (allFetched f₁ cats₁).isEmpty
  · have he₁ : allFetched f₁ cats₁ = [] := List.isEmpty_iff.mp hall
    have he₂ : allFetched f₂ cats₂ = [] := by
      rw [he₁] at hperm
      exact hperm.symm.eq_nil
    simp [he₁, he₂]
  · have hall₂ : ¬(allFetched f₂ cats₂).isEmpty := by
      intro h2
      rw [List.isEmpty_iff.mp h2] at hperm
      exact hall (List.isEmpty_iff.mpr hperm.eq_nil)
    simp only [hall, hall₂, Bool.false_eq_true, if_false]
    have hvperm : List.Perm (((allFetched f₁ cats₁).foldl dedupStep []).map Prod.snd)
        (((allFetched f₂ cats₂).foldl dedupStep []).map Prod.snd) := by
      rw [List.perm_ext_iff_of_nodup (dedup_values_nodup _) (dedup_values_nodup _)]
      intro c
      rw [dedup_values_mem_iff _ hnd c, dedup_values_mem_iff _ hnd₂ c]
      constructor
      · rintro ⟨h1, h2⟩
        exact ⟨hperm.mem_iff.mp h1, fun d hd => h2 d (hperm.mem_iff.mpr hd)⟩
      · rintro ⟨h1, h2⟩
        exact ⟨hperm.mem_iff.mpr h1, fun d hd => h2 d (hperm.mem_iff.mp hd)⟩
    have hs₁ := List.sorted_insertionSort scoreGE
      (((allFetched f₁ cats₁).foldl dedupStep []).map Prod.snd)
    have hs₂ := List.sorted_insertionSort scoreGE
      (((allFetched f₂ cats₂).foldl dedupStep []).map Prod.snd)
    have hsperm := ((List.perm_insertionSort scoreGE _).trans hvperm).trans
      (List.perm_insertionSort scoreGE
        (((allFetched f₂ cats₂).foldl dedupStep []).map Prod.snd)).symm
    have hnds₁ : ((((allFetched f₁ cats₁).foldl dedupStep []).map
        Prod.snd).insertionSort scoreGE |>.map Candidate.ecoscore_score).Nodup :=
      ((List.perm_insertionSort scoreGE _).map Candidate.ecoscore_score).nodup_iff.mpr
        (scores_nodup_values _ hnd)
    have hnds₂ : ((((allFetched f₂ cats₂).foldl dedupStep []).map
        Prod.snd).insertionSort scoreGE |>.map Candidate.ecoscore_score).Nodup :=
      ((List.perm_insertionSort scoreGE _).map Candidate.ecoscore_score).nodup_iff.mpr
        (scores_nodup_values _ hnd₂)
    haveI : IsAntisymm Candidate (fun a b : Candidate => b.ecoscore_score < a.ecoscore_score) :=
      ⟨fun _ _ h1 h2 => absurd h2 (not_lt.mpr (le_of_lt h1))⟩
    have heq := List.eq_of_perm_of_sorted hsperm
      (sorted_strict_of_nodup_scores hs₁ hnds₁) (sorted_strict_of_nodup_scores hs₂ hnds₂)
    rw [heq]

/-- C5 witness: with pairwise distinct scores, the two arrival orders give
the same ranked result. -/
theorem c5_order_invariance_witness :
    (allFetched fetchAC ["cat1", "cat2"]).Perm (allFetched fetchCA ["cat1", "cat2"]) ∧
    ((allFetched fetchAC ["cat1", "cat2"]).map Candidate.ecoscore_score).Nodup ∧
    aggregate_and_rank_products fetchAC ["cat1", "cat2"] 3
      = aggregate_and_rank_products fetchCA ["cat1", "cat2"] 3 := by
  have hp : (allFetched fetchAC ["cat1", "cat2"]).Perm (allFetched fetchCA ["cat1", "cat2"]) :=
    List.Perm.swap candC candA []
  exact ⟨hp, by decide, c5_order_invariance fetchAC fetchCA ["cat1", "cat2"] ["cat1", "cat2"] 3
    hp (by decide)⟩
